import Mathlib

/-!
Verification development for the trade.re matching kernel.

Shallow embedding of the Go sources (internal/engine/matcher.go, the order
book, internal/liquidation/engine.go, internal/db/sqlite.go) into Lean.
Decimals (github.com/shopspring/decimal) are modelled as exact rationals ℚ;
UUIDs as natural numbers; timestamps as natural numbers.  Go maps keyed by
unique keys are modelled as association lists; Go's in-place mutation is
modelled by explicit state passing.
-/

-- Rational arithmetic is marked irreducible upstream, which blocks kernel
-- evaluation of concrete states; restore ordinary unfolding for it.
set_option allowUnsafeReducibility true in
attribute [semireducible] Rat.add Rat.sub Rat.mul Rat.inv Rat.ofScientific

namespace TradeRe

/-- Order side (domain.Side: "buy" / "sell"). -/
inductive Side where
  | buy
  | sell
deriving DecidableEq, Repr

/-- Order type (domain.OrderType: "limit" / "market"). -/
inductive OrderType where
  | limit
  | market
deriving DecidableEq, Repr

/-- Order status (domain.OrderStatus).  `partFill` stands for the source's
"partial" status string. -/
inductive OrderStatus where
  | pending
  | partFill
  | filled
  | cancelled
deriving DecidableEq, Repr

/-- Position effect (domain.PositionEffect: "open" / "close" / "liquidation"). -/
inductive PositionEffect where
  | openPos
  | closePos
  | liquidationPos
deriving DecidableEq, Repr

/-- domain.Order. `price` is the limit price (zero for market orders). -/
structure Order where
  id : Nat
  traderId : Nat
  instrument : String
  side : Side
  otype : OrderType
  price : ℚ
  size : ℚ
  filledSize : ℚ
  leverage : Int
  status : OrderStatus
  createdAt : Nat
  updatedAt : Nat
deriving DecidableEq, Repr

/-- Order.RemainingSize: Size − FilledSize. -/
def Order.remainingSize (o : Order) : ℚ := o.size - o.filledSize

/-- domain.Trader (the fields the engine mutates). -/
structure Trader where
  id : Nat
  balance : ℚ
  totalPnl : ℚ
  tradeCount : Nat
  maxLeverageUsed : Int
deriving DecidableEq, Repr

/-- domain.Position. -/
structure Position where
  traderId : Nat
  instrument : String
  size : ℚ
  entryPrice : ℚ
  leverage : Int
  margin : ℚ
  unrealizedPnl : ℚ
  realizedPnl : ℚ
  liquidationPrice : ℚ
  updatedAt : Nat
deriving DecidableEq, Repr

/-- Position.IsLong: Size.IsPositive(). -/
def Position.isLong (p : Position) : Bool := 0 < p.size

/-- domain.Trade. -/
structure Trade where
  id : Nat
  instrument : String
  price : ℚ
  size : ℚ
  timestamp : Nat
  buyerId : Nat
  sellerId : Nat
  buyerOrderId : Nat
  sellerOrderId : Nat
  buyerEffect : PositionEffect
  sellerEffect : PositionEffect
  buyerNewPosition : ℚ
  sellerNewPosition : ℚ
  aggressorSide : Side
deriving DecidableEq, Repr

/-- domain.Liquidation (fields the liquidation engine fills in). -/
structure Liquidation where
  traderId : Nat
  instrument : String
  side : Side
  size : ℚ
  entryPrice : ℚ
  liquidationPrice : ℚ
  markPrice : ℚ
  leverage : Int
  loss : ℚ
  insuranceFundHit : Bool
  timestamp : Nat
deriving DecidableEq, Repr

/-- config.MaintenanceMargins: maintenance margin by leverage tier. -/
structure MaintenanceMargins where
  conservative : ℚ
  moderate : ℚ
  aggressive : ℚ
  degen : ℚ
deriving DecidableEq, Repr

/-- MaintenanceMargins.GetMarginForLeverage. -/
def MaintenanceMargins.getMarginForLeverage (m : MaintenanceMargins) (leverage : Int) : ℚ :=
  if leverage ≤ 10 then m.conservative
  else if leverage ≤ 50 then m.moderate
  else if leverage ≤ 100 then m.aggressive
  else m.degen

/-- MatchingEngine.calculateLiquidationPrice.  A `none` config corresponds to
the engine's nil liqConfig, in which case the method returns decimal.Zero. -/
def calculateLiquidationPrice (cfg : Option MaintenanceMargins)
    (entryPrice : ℚ) (leverage : Int) (isLong : Bool) : ℚ :=
  match cfg with
  | none => 0
  | some m =>
    let maintMargin := m.getMarginForLeverage leverage
    let distance := entryPrice / (leverage : ℚ) * (1 - maintMargin)
    if isLong then entryPrice - distance else entryPrice + distance

/-- The fresh position record that MatchingEngine.updatePosition builds when the
trader has no record yet: zero size, zero entry, leverage hard-coded to 1. -/
def freshPosition (traderId : Nat) (instrument : String) : Position :=
  { traderId := traderId
    instrument := instrument
    size := 0
    entryPrice := 0
    leverage := 1
    margin := 0
    unrealizedPnl := 0
    realizedPnl := 0
    liquidationPrice := 0
    updatedAt := 0 }

/-- The body of MatchingEngine.updatePosition acting on one position record:
entry-price / realized-P&L update, size update, liquidation-price refresh. -/
def updatePositionCore (cfg : Option MaintenanceMargins) (pos : Position)
    (sizeChange price : ℚ) (now : Nat) : Position :=
  let oldSize := pos.size
  let newSize := oldSize + sizeChange
  let pos1 :=
    if oldSize = 0 then
      { pos with entryPrice := price }
    else if (0 < oldSize ∧ 0 < sizeChange) ∨ (oldSize < 0 ∧ sizeChange < 0) then
      let totalCost := oldSize * pos.entryPrice + sizeChange * price
      { pos with entryPrice := totalCost / newSize }
    else
      let closedSize := min |oldSize| |sizeChange|
      let pnl := if 0 < oldSize then (price - pos.entryPrice) * closedSize
                 else (pos.entryPrice - price) * closedSize
      let pos' := { pos with realizedPnl := pos.realizedPnl + pnl }
      if ¬ newSize = 0 ∧ ((0 < oldSize ∧ newSize < 0) ∨ (oldSize < 0 ∧ 0 < newSize)) then
        { pos' with entryPrice := price }
      else pos'
  let pos2 := { pos1 with size := newSize, updatedAt := now }
  if ¬ newSize = 0 then
    { pos2 with
        liquidationPrice := calculateLiquidationPrice cfg pos2.entryPrice pos2.leverage
          (decide (0 < newSize)) }
  else pos2

/-- Position map keyed by (trader, instrument), mirroring me.positions. -/
abbrev PositionMap := List ((Nat × String) × Position)

/-- Lookup in the position map (Go map access me.positions[posKey]). -/
def lookupPos : PositionMap → Nat × String → Option Position
  | [], _ => none
  | (k, p) :: rest, key => if k = key then some p else lookupPos rest key

/-- Set a key in the position map (Go map assignment). -/
def setPos : PositionMap → Nat × String → Position → PositionMap
  | [], key, p => [(key, p)]
  | (k, q) :: rest, key, p =>
    if k = key then (k, p) :: rest else (k, q) :: setPos rest key p

/-- Delete a key from the position map (Go `delete`). -/
def delPos : PositionMap → Nat × String → PositionMap
  | [], _ => []
  | (k, q) :: rest, key => if k = key then rest else (k, q) :: delPos rest key

/-- MatchingEngine.updatePosition: fetch-or-create the record, apply the core
update, store it back, and return the new map together with the new size. -/
def updatePosition (cfg : Option MaintenanceMargins) (ps : PositionMap)
    (traderId : Nat) (instrument : String) (sizeChange price : ℚ) (now : Nat) :
    PositionMap × ℚ :=
  let pos :=
    match lookupPos ps (traderId, instrument) with
    | some p => p
    | none => freshPosition traderId instrument
  let pos' := updatePositionCore cfg pos sizeChange price now
  (setPos ps (traderId, instrument) pos', pos'.size)

/-- MatchingEngine.determinePositionEffect. -/
def determinePositionEffect (ps : PositionMap) (traderId : Nat)
    (instrument : String) (sizeChange : ℚ) : PositionEffect :=
  match lookupPos ps (traderId, instrument) with
  | none => .openPos
  | some pos =>
    if pos.size = 0 then .openPos
    else if (0 < pos.size ∧ 0 < sizeChange) ∨ (pos.size < 0 ∧ sizeChange < 0) then .openPos
    else .closePos

/-- liquidation.Engine.liquidatePosition, restricted to what it computes:
the loss at mark price, the liquidation record, and the new insurance-fund
balance.  Returns (new fund balance, liquidation record). -/
def liquidatePositionCalc (fund : ℚ) (pos : Position) (markPrice : ℚ)
    (now : Nat) : ℚ × Liquidation :=
  let loss :=
    if pos.isLong then (pos.entryPrice - markPrice) * pos.size
    else (markPrice - pos.entryPrice) * |pos.size|
  let side := if pos.isLong then Side.buy else Side.sell
  let liq : Liquidation :=
    { traderId := pos.traderId
      instrument := pos.instrument
      side := side
      size := |pos.size|
      entryPrice := pos.entryPrice
      liquidationPrice := pos.liquidationPrice
      markPrice := markPrice
      leverage := pos.leverage
      loss := loss
      insuranceFundHit := false
      timestamp := now }
  if pos.margin < loss then
    let shortfall := loss - pos.margin
    if shortfall ≤ fund then
      (fund - shortfall, { liq with insuranceFundHit := true })
    else
      (0, { liq with insuranceFundHit := true })
  else
    let surplus := pos.margin - loss
    (fund + surplus, liq)

/-- engine.priceLevel: a FIFO queue of resting orders at one price.  The Go
linked list with head/tail pointers is modelled as a plain list (head first);
`orderCount` is the Go int counter, kept separate from the queue length
exactly as the source keeps it. -/
structure PriceLevel where
  price : ℚ
  totalSize : ℚ
  queue : List Order
  orderCount : Int
deriving DecidableEq, Repr

/-- engine.OrderBook: bids and asks.  Go stores each side as a map keyed by
the price string; since each price occurs at most once we model a side as a
list of levels with pairwise-distinct prices. -/
structure OrderBook where
  instrument : String
  bids : List PriceLevel
  asks : List PriceLevel
deriving DecidableEq, Repr

/-- engine.NewOrderBook. -/
def newOrderBook (instrument : String) : OrderBook :=
  { instrument := instrument, bids := [], asks := [] }

/-- OrderBook.AddOrder acting on one side: append the order to the FIFO queue
of its price level, creating the level if absent. -/
def addOrderToSide (levels : List PriceLevel) (o : Order) : List PriceLevel :=
  if levels.any (fun lv => lv.price = o.price) then
    levels.map (fun lv =>
      if lv.price = o.price then
        { lv with
            queue := lv.queue ++ [o]
            totalSize := lv.totalSize + o.remainingSize
            orderCount := lv.orderCount + 1 }
      else lv)
  else
    levels ++ [{ price := o.price
                 totalSize := o.remainingSize
                 queue := [o]
                 orderCount := 1 }]

/-- OrderBook.AddOrder. -/
def OrderBook.addOrder (b : OrderBook) (o : Order) : OrderBook :=
  match o.side with
  | .buy => { b with bids := addOrderToSide b.bids o }
  | .sell => { b with asks := addOrderToSide b.asks o }

/-- The book-wide order index ob.orders: look an order up by id across both
sides (ids are unique in reachable books, so the search order is immaterial). -/
def OrderBook.findOrder (b : OrderBook) (oid : Nat) : Option Order :=
  ((b.bids ++ b.asks).flatMap (fun lv => lv.queue)).find? (fun o => o.id = oid)

/-- The level mutation performed by OrderBook.RemoveOrder once the order's
node is found: unlink the first node with this id, subtract the order's
current remaining size from totalSize, decrement orderCount. -/
def removeFromLevel (lv : PriceLevel) (o : Order) : PriceLevel :=
  if lv.queue.any (fun x => x.id = o.id) then
    { lv with
        queue := lv.queue.eraseP (fun x => x.id = o.id)
        totalSize := lv.totalSize - o.remainingSize
        orderCount := lv.orderCount - 1 }
  else lv

/-- OrderBook.RemoveOrder acting on one side: update the level at the order's
price and delete it when its orderCount reaches 0. -/
def removeOrderFromSide (levels : List PriceLevel) (o : Order) : List PriceLevel :=
  levels.filterMap (fun lv =>
    if lv.price = o.price then
      let lv' := removeFromLevel lv o
      if lv'.orderCount = 0 then none else some lv'
    else some lv)

/-- OrderBook.RemoveOrder. -/
def OrderBook.removeOrder (b : OrderBook) (oid : Nat) : OrderBook :=
  match b.findOrder oid with
  | none => b
  | some o =>
    match o.side with
    | .buy => { b with bids := removeOrderFromSide b.bids o }
    | .sell => { b with asks := removeOrderFromSide b.asks o }

/-- Select the best level under comparison `better` and return it together
with the remaining levels (in their original order). -/
def pickBest (better : ℚ → ℚ → Bool) : PriceLevel → List PriceLevel →
    PriceLevel × List PriceLevel
  | best, [] => (best, [])
  | best, lv :: rest =>
    if better lv.price best.price then
      let (b, r) := pickBest better lv rest
      (b, best :: r)
    else
      let (b, r) := pickBest better best rest
      (b, lv :: r)

/-- Fuel-driven selection sort.  The source sorts level slices with an
in-place exchange sort (sortLevelsAsc / sortLevelsDesc); since prices within
a side are pairwise distinct both produce the unique sorted arrangement, which
this selection sort also produces. -/
def sortLevelsBy (better : ℚ → ℚ → Bool) : Nat → List PriceLevel → List PriceLevel
  | 0, l => l
  | _, [] => []
  | fuel + 1, lv :: rest =>
    let (b, r) := pickBest better lv rest
    b :: sortLevelsBy better fuel r

/-- sortLevelsAsc: lowest price first. -/
def sortLevelsAsc (l : List PriceLevel) : List PriceLevel :=
  sortLevelsBy (fun a b => decide (a < b)) l.length l

/-- sortLevelsDesc: highest price first. -/
def sortLevelsDesc (l : List PriceLevel) : List PriceLevel :=
  sortLevelsBy (fun a b => decide (b < a)) l.length l

/-- OrderBook.matchableAsks: ask levels priced at or below `price`, best
(lowest) first. -/
def OrderBook.matchableAsks (b : OrderBook) (price : ℚ) : List PriceLevel :=
  sortLevelsAsc (b.asks.filter (fun lv => lv.price ≤ price))

/-- OrderBook.matchableBids: bid levels priced at or above `price`, best
(highest) first. -/
def OrderBook.matchableBids (b : OrderBook) (price : ℚ) : List PriceLevel :=
  sortLevelsDesc (b.bids.filter (fun lv => price ≤ lv.price))

/-- The mutable engine state threaded through matching: positions, traders,
the recent-trades ring (newest first, capacity 1000) and a counter standing
in for uuid generation of trade ids. -/
structure MState where
  positions : PositionMap
  traders : List Trader
  recentTrades : List Trade
  nextId : Nat
deriving DecidableEq, Repr

/-- Increment TradeCount of the trader with this id, if present. -/
def bumpTradeCount (ts : List Trader) (tid : Nat) : List Trader :=
  ts.map (fun t => if t.id = tid then { t with tradeCount := t.tradeCount + 1 } else t)

/-- MatchingEngine.createTrade: classify effects, update both positions,
build the immutable trade record, bump trader stats, prepend to the
recent-trades ring (capped at 1000). -/
def createTrade (cfg : Option MaintenanceMargins) (st : MState)
    (aggressor resting : Order) (price size : ℚ) (now : Nat) : MState × Trade :=
  let buyerOrder := if aggressor.side = .buy then aggressor else resting
  let sellerOrder := if aggressor.side = .buy then resting else aggressor
  let aggressorSide := if aggressor.side = .buy then Side.buy else Side.sell
  let buyerEffect :=
    determinePositionEffect st.positions buyerOrder.traderId buyerOrder.instrument size
  let sellerEffect :=
    determinePositionEffect st.positions sellerOrder.traderId sellerOrder.instrument (-size)
  let r1 := updatePosition cfg st.positions buyerOrder.traderId buyerOrder.instrument size price now
  let r2 := updatePosition cfg r1.1 sellerOrder.traderId sellerOrder.instrument (-size) price now
  let trade : Trade :=
    { id := st.nextId
      instrument := aggressor.instrument
      price := price
      size := size
      timestamp := now
      buyerId := buyerOrder.traderId
      sellerId := sellerOrder.traderId
      buyerOrderId := buyerOrder.id
      sellerOrderId := sellerOrder.id
      buyerEffect := buyerEffect
      sellerEffect := sellerEffect
      buyerNewPosition := r1.2
      sellerNewPosition := r2.2
      aggressorSide := aggressorSide }
  let traders1 := bumpTradeCount st.traders buyerOrder.traderId
  let traders2 := bumpTradeCount traders1 sellerOrder.traderId
  ({ positions := r2.1
     traders := traders2
     recentTrades := (trade :: st.recentTrades).take 1000
     nextId := st.nextId + 1 }, trade)

/-- The inner queue walk of MatchingEngine.matchOrder on one price level.
Threads the level's totalSize and orderCount exactly as the source mutates
them: a partial fill subtracts the fill from totalSize; a full fill routes
through RemoveOrder, which subtracts the (already zero) remaining size and
decrements orderCount.  Returns (state, aggressor, trades, remaining queue,
totalSize, orderCount). -/
def processQueue (cfg : Option MaintenanceMargins) (st : MState) (agg : Order)
    (q : List Order) (totalSize : ℚ) (count : Int) (now : Nat) :
    MState × Order × List Trade × List Order × ℚ × Int :=
  match q with
  | [] => (st, agg, [], [], totalSize, count)
  | resting :: rest =>
    if ¬ 0 < agg.remainingSize then
      (st, agg, [], resting :: rest, totalSize, count)
    else if resting.traderId = agg.traderId then
      let r := processQueue cfg st agg rest totalSize count now
      (r.1, r.2.1, r.2.2.1, resting :: r.2.2.2.1, r.2.2.2.2.1, r.2.2.2.2.2)
    else
      let fillSize := min agg.remainingSize resting.remainingSize
      let fillPrice := resting.price
      let ct := createTrade cfg st agg resting fillPrice fillSize now
      let agg1 := { agg with filledSize := agg.filledSize + fillSize, updatedAt := now }
      let resting1 := { resting with filledSize := resting.filledSize + fillSize, updatedAt := now }
      if resting1.remainingSize = (0 : ℚ) then
        let resting2 := { resting1 with status := OrderStatus.filled }
        let r := processQueue cfg ct.1 agg1 rest (totalSize - resting2.remainingSize) (count - 1) now
        (r.1, r.2.1, ct.2 :: r.2.2.1, r.2.2.2.1, r.2.2.2.2.1, r.2.2.2.2.2)
      else
        let resting2 := { resting1 with status := OrderStatus.partFill }
        let r := processQueue cfg ct.1 agg1 rest (totalSize - fillSize) count now
        (r.1, r.2.1, ct.2 :: r.2.2.1, resting2 :: r.2.2.2.1, r.2.2.2.2.1, r.2.2.2.2.2)

/-- Process one matchable level; the level is dropped from the book when its
orderCount reaches 0 (the deletion performed inside RemoveOrder). -/
def processLevel (cfg : Option MaintenanceMargins) (st : MState) (agg : Order)
    (lv : PriceLevel) (now : Nat) :
    MState × Order × List Trade × Option PriceLevel :=
  let r := processQueue cfg st agg lv.queue lv.totalSize lv.orderCount now
  (r.1, r.2.1, r.2.2.1,
    if r.2.2.2.2.2 = 0 then none
    else some { lv with queue := r.2.2.2.1, totalSize := r.2.2.2.2.1, orderCount := r.2.2.2.2.2 })

/-- The outer loop of matchOrder over the matchable levels, breaking when the
aggressor's remaining size reaches zero.  Returns the per-price outcomes for
the levels that were visited. -/
def processLevels (cfg : Option MaintenanceMargins) (st : MState) (agg : Order)
    (lvs : List PriceLevel) (now : Nat) :
    MState × Order × List Trade × List (ℚ × Option PriceLevel) :=
  match lvs with
  | [] => (st, agg, [], [])
  | lv :: rest =>
    if agg.remainingSize = 0 then (st, agg, [], [])
    else
      let r1 := processLevel cfg st agg lv now
      let r2 := processLevels cfg r1.1 r1.2.1 rest now
      (r2.1, r2.2.1, r1.2.2.1 ++ r2.2.2.1, (lv.price, r1.2.2.2) :: r2.2.2.2)

/-- Look an outcome up by price. -/
def lookupOutcome : List (ℚ × Option PriceLevel) → ℚ → Option (Option PriceLevel)
  | [], _ => none
  | (p, o) :: rest, q => if p = q then some o else lookupOutcome rest q

/-- Fold the per-price outcomes back into a book side: visited levels are
replaced by their processed version or deleted, untouched levels are kept. -/
def applyOutcomes (levels : List PriceLevel) (outs : List (ℚ × Option PriceLevel)) :
    List PriceLevel :=
  levels.filterMap (fun lv =>
    match lookupOutcome outs lv.price with
    | none => some lv
    | some o => o)

/-- The sentinel price decimal.New(1, 18) used for market buys. -/
def marketBuyCap : ℚ := 10 ^ 18

/-- MatchingEngine.matchOrder.  Returns (state, book, aggressor, trades). -/
def matchOrder (cfg : Option MaintenanceMargins) (st : MState) (book : OrderBook)
    (order : Order) (now : Nat) : MState × OrderBook × Order × List Trade :=
  let matchLevels :=
    match order.side, order.otype with
    | .buy, .market => book.matchableAsks marketBuyCap
    | .buy, .limit => book.matchableAsks order.price
    | .sell, .market => book.matchableBids 0
    | .sell, .limit => book.matchableBids order.price
  let r := processLevels cfg st order matchLevels now
  let book' :=
    match order.side with
    | .buy => { book with asks := applyOutcomes book.asks r.2.2.2 }
    | .sell => { book with bids := applyOutcomes book.bids r.2.2.2 }
  (r.1, book', r.2.1, r.2.2.1)

/-- The two error kinds SubmitOrder can return ("unknown instrument: …" and
"unknown trader: …"). -/
inductive SubmitError where
  | unknownInstrument
  | unknownTrader
deriving DecidableEq, Repr

/-- The engine state visible to SubmitOrder / ClosePosition. -/
structure EngineState where
  books : List (String × OrderBook)
  positions : PositionMap
  traders : List Trader
  recentTrades : List Trade
  nextId : Nat
deriving DecidableEq, Repr

/-- Go map access me.books[instrument]. -/
def lookupBook : List (String × OrderBook) → String → Option OrderBook
  | [], _ => none
  | (k, b) :: rest, key => if k = key then some b else lookupBook rest key

/-- Go map assignment me.books[instrument] = book. -/
def setBook : List (String × OrderBook) → String → OrderBook →
    List (String × OrderBook)
  | [], key, b => [(key, b)]
  | (k, b0) :: rest, key, b =>
    if k = key then (k, b) :: rest else (k, b0) :: setBook rest key b

/-- MatchingEngine.SubmitOrder.  `newId` stands for the freshly generated
order uuid and `now` for time.Now().  Validation failures return before any
state is touched, exactly as the source returns before any mutation. -/
def submitOrder (cfg : Option MaintenanceMargins) (st : EngineState)
    (order0 : Order) (newId : Nat) (now : Nat) :
    Except SubmitError (EngineState × Order × List Trade) :=
  match lookupBook st.books order0.instrument with
  | none => .error .unknownInstrument
  | some book =>
    if st.traders.any (fun t => t.id = order0.traderId) then
      let order1 := { order0 with
        id := newId, status := OrderStatus.pending, filledSize := 0,
        createdAt := now, updatedAt := now }
      let mst : MState :=
        { positions := st.positions, traders := st.traders,
          recentTrades := st.recentTrades, nextId := st.nextId }
      let r := matchOrder cfg mst book order1 now
      let order2 := r.2.2.1
      let (book2, order3) :=
        if 0 < order2.remainingSize ∧ order2.otype = .limit then
          let order' := { order2 with
            status := if order2.filledSize = 0 then OrderStatus.pending
                      else OrderStatus.partFill }
          (r.2.1.addOrder order', order')
        else if order2.remainingSize = 0 then
          (r.2.1, { order2 with status := OrderStatus.filled })
        else (r.2.1, order2)
      .ok ({ books := setBook st.books order0.instrument book2
             positions := r.1.positions
             traders := r.1.traders
             recentTrades := r.1.recentTrades
             nextId := r.1.nextId }, order3, r.2.2.2)
    else .error .unknownTrader

/-- MatchingEngine.ClosePosition.  Returns the new state and an error message
(`some _` = the Go error path).  The error path returns before any mutation. -/
def closePosition (st : EngineState) (traderId : Nat) (instrument : String)
    (markPrice : ℚ) : EngineState × Option String :=
  match lookupPos st.positions (traderId, instrument) with
  | none => (st, some "no position to close")
  | some pos =>
    if pos.size = 0 then (st, some "no position to close")
    else
      let pnl :=
        if pos.isLong then (markPrice - pos.entryPrice) * pos.size
        else (pos.entryPrice - markPrice) * |pos.size|
      let traders' := st.traders.map (fun t =>
        if t.id = traderId then
          { t with balance := t.balance + pos.margin + pnl, totalPnl := t.totalPnl + pnl }
        else t)
      ({ st with
          traders := traders'
          positions := delPos st.positions (traderId, instrument) }, none)

/-! ### Persistence adapter (internal/db/sqlite.go), the order store -/

/-- A row of the sqlite `orders` table.  Side, type and status are stored as
strings, exactly as the adapter serialises them. -/
structure OrderRow where
  id : Nat
  traderId : Nat
  instrument : String
  side : String
  otype : String
  price : ℚ
  size : ℚ
  filledSize : ℚ
  status : String
  leverage : Int
  createdAt : Nat
  updatedAt : Nat
deriving DecidableEq, Repr

/-- String serialisation of a side (domain.Side is the string itself). -/
def Side.str : Side → String
  | .buy => "buy"
  | .sell => "sell"

/-- String serialisation of an order type. -/
def OrderType.str : OrderType → String
  | .limit => "limit"
  | .market => "market"

/-- String serialisation of an order status (domain.OrderStatus constants). -/
def OrderStatus.str : OrderStatus → String
  | .pending => "pending"
  | .partFill => "partial"
  | .filled => "filled"
  | .cancelled => "cancelled"

/-- Parse a side string back (GetOpenOrders scan: domain.Side(sideStr)). -/
def sideOfString (s : String) : Side := if s = "buy" then .buy else .sell

/-- Parse an order-type string back. -/
def orderTypeOfString (s : String) : OrderType := if s = "market" then .market else .limit

/-- Parse a status string back.  The Go scan performs an unchecked string
cast; the four enum constants are the only statuses SaveOrder ever writes. -/
def orderStatusOfString (s : String) : OrderStatus :=
  if s = "pending" then .pending
  else if s = "partial" then .partFill
  else if s = "filled" then .filled
  else .cancelled

/-- The row SaveOrder writes for an order. -/
def orderToRow (o : Order) : OrderRow :=
  { id := o.id
    traderId := o.traderId
    instrument := o.instrument
    side := o.side.str
    otype := o.otype.str
    price := o.price
    size := o.size
    filledSize := o.filledSize
    status := o.status.str
    leverage := o.leverage
    createdAt := o.createdAt
    updatedAt := o.updatedAt }

/-- The order store of the sqlite database. -/
structure Db where
  orders : List OrderRow
deriving DecidableEq, Repr

/-- SQLiteDB.SaveOrder: INSERT … ON CONFLICT(id) DO UPDATE SET filled_size,
status, updated_at. -/
def saveOrder (db : Db) (o : Order) : Db :=
  if db.orders.any (fun r => r.id = o.id) then
    { orders := db.orders.map (fun r =>
        if r.id = o.id then
          { r with filledSize := o.filledSize, status := o.status.str, updatedAt := o.updatedAt }
        else r) }
  else
    { orders := db.orders ++ [orderToRow o] }

/-- SQLiteDB.DeleteOrder. -/
def deleteOrder (db : Db) (oid : Nat) : Db :=
  { orders := db.orders.filter (fun r => ¬ r.id = oid) }

/-- Select the row with the smallest created_at and return it with the rest. -/
def pickEarliest : OrderRow → List OrderRow → OrderRow × List OrderRow
  | best, [] => (best, [])
  | best, r :: rest =>
    if r.createdAt < best.createdAt then
      let (b, rs) := pickEarliest r rest
      (b, best :: rs)
    else
      let (b, rs) := pickEarliest best rest
      (b, r :: rs)

/-- Fuel-driven selection sort by created_at ascending (ORDER BY created_at). -/
def sortRowsByCreated : Nat → List OrderRow → List OrderRow
  | 0, l => l
  | _, [] => []
  | fuel + 1, r :: rest =>
    let (b, rs) := pickEarliest r rest
    b :: sortRowsByCreated fuel rs

/-- Rebuild a domain order from a row (the scan loop of GetOpenOrders). -/
def rowToOrder (r : OrderRow) : Order :=
  { id := r.id
    traderId := r.traderId
    instrument := r.instrument
    side := sideOfString r.side
    otype := orderTypeOfString r.otype
    price := r.price
    size := r.size
    filledSize := r.filledSize
    leverage := r.leverage
    status := orderStatusOfString r.status
    createdAt := r.createdAt
    updatedAt := r.updatedAt }

/-- SQLiteDB.GetOpenOrders: SELECT … WHERE instrument = ? AND status = 'open'
ORDER BY created_at. -/
def getOpenOrders (db : Db) (instrument : String) : List Order :=
  let rows := db.orders.filter (fun r => r.instrument = instrument ∧ r.status = "open")
  (sortRowsByCreated rows.length rows).map rowToOrder

/-- The resting-order replay step of MatchingEngine.LoadFromDatabase: every
order returned by GetOpenOrders is added to the instrument's book in order. -/
def loadOpenOrders (db : Db) (instrument : String) (book : OrderBook) : OrderBook :=
  (getOpenOrders db instrument).foldl (fun b o => b.addOrder o) book

/-! ### Market stats and candles (GetCandles) -/

/-- domain.CandleInterval. -/
inductive CandleInterval where
  | oneMin
  | fiveMin
  | fifteenMin
  | oneHour
  | fourHour
  | oneDay
deriving DecidableEq, Repr

/-- engine.getIntervalDuration, in seconds. -/
def getIntervalDuration : CandleInterval → Nat
  | .oneMin => 60
  | .fiveMin => 300
  | .fifteenMin => 900
  | .oneHour => 3600
  | .fourHour => 14400
  | .oneDay => 86400

/-- engine.truncateToInterval: round a UTC timestamp down to a multiple of the
interval duration. -/
def truncateToInterval (t d : Nat) : Nat := t / d * d

/-- domain.Candle. `interval` records the bucket duration in seconds. -/
structure Candle where
  instrument : String
  interval : Nat
  openTime : Nat
  closeTime : Nat
  openPrice : ℚ
  highPrice : ℚ
  lowPrice : ℚ
  closePrice : ℚ
  volume : ℚ
  tradeCount : Nat
deriving DecidableEq, Repr

/-- The candle GetCandles creates when a bucket is first seen. -/
def newCandle (instrument : String) (d candleStart : Nat) (t : Trade) : Candle :=
  { instrument := instrument
    interval := d
    openTime := candleStart
    closeTime := candleStart + d
    openPrice := t.price
    highPrice := t.price
    lowPrice := t.price
    closePrice := t.price
    volume := t.size
    tradeCount := 1 }

/-- The update GetCandles applies when the bucket already exists; trades are
iterated newest first, so Open is overwritten by each older trade and Close
is never touched after creation. -/
def updCandle (c : Candle) (t : Trade) : Candle :=
  { c with
      openPrice := t.price
      highPrice := if c.highPrice < t.price then t.price else c.highPrice
      lowPrice := if t.price < c.lowPrice then t.price else c.lowPrice
      volume := c.volume + t.size
      tradeCount := c.tradeCount + 1 }

/-- Look a candle up in the bucket map by its key. -/
def lookupCandle : List (Nat × Candle) → Nat → Option Candle
  | [], _ => none
  | (k, c) :: rest, key => if k = key then some c else lookupCandle rest key

/-- One iteration of the GetCandles loop over a trade. -/
def stepCandle (instrument : String) (d : Nat) (m : List (Nat × Candle))
    (t : Trade) : List (Nat × Candle) :=
  if t.instrument = instrument then
    let key := truncateToInterval t.timestamp d
    match lookupCandle m key with
    | some _ => m.map (fun p => if p.1 = key then (p.1, updCandle p.2 t) else p)
    | none => m ++ [(key, newCandle instrument d key t)]
  else m

/-- Build the candleMap from the trade list (iterated in list order, which
for the engine's recentTrades ring is newest first). -/
def buildCandles (instrument : String) (d : Nat) (trades : List Trade) :
    List (Nat × Candle) :=
  trades.foldl (stepCandle instrument d) []

/-- Select the candle with the latest open time and return the rest. -/
def pickLatest : Candle → List Candle → Candle × List Candle
  | best, [] => (best, [])
  | best, c :: rest =>
    if best.openTime < c.openTime then
      let (b, cs) := pickLatest c rest
      (b, best :: cs)
    else
      let (b, cs) := pickLatest best rest
      (b, c :: cs)

/-- Fuel-driven selection sort of candles by open time descending (the
source's in-place exchange sort sorts newest first). -/
def sortCandlesDesc : Nat → List Candle → List Candle
  | 0, l => l
  | _, [] => []
  | fuel + 1, c :: rest =>
    let (b, cs) := pickLatest c rest
    b :: sortCandlesDesc fuel cs

/-- MatchingEngine.GetCandles: bucket the recent trades, sort the buckets
newest first and truncate to `limit`. -/
def getCandles (instrument : String) (interval : CandleInterval) (limit : Nat)
    (trades : List Trade) : List Candle :=
  let d := getIntervalDuration interval
  let m := buildCandles instrument d trades
  let cs := m.map (fun p => p.2)
  (sortCandlesDesc cs.length cs).take limit

/-! ### Helper notions used by the claim statements -/

/-- All orders resting on one side of the book, in level-list order then FIFO
order within each level. -/
def sideOrders (levels : List PriceLevel) : List Order :=
  levels.flatMap (fun lv => lv.queue)

/-- The orders of a given trader resting on one side, in book order. -/
def selfOrders (levels : List PriceLevel) (tid : Nat) : List Order :=
  (sideOrders levels).filter (fun o => o.traderId = tid)

/-- The ids of all orders resting in a book. -/
def bookOrderIds (b : OrderBook) : List Nat :=
  (sideOrders b.bids ++ sideOrders b.asks).map (fun o => o.id)

/-- Sum of the remaining sizes of the orders in a queue. -/
def queueRemainingSum (q : List Order) : ℚ :=
  (q.map (fun o => o.remainingSize)).sum

/-- A side is wellformed when each level's orderCount equals its queue
length (maintained by AddOrder / RemoveOrder). -/
def sideWellformed (levels : List PriceLevel) : Prop :=
  ∀ lv ∈ levels, lv.orderCount = (lv.queue.length : Int)

/-- Pairwise-distinct prices on a side (Go keys the side map by price). -/
def sidePricesNodup (levels : List PriceLevel) : Prop :=
  (levels.map (fun lv => lv.price)).Nodup

/-- Relation between a visited level and its per-price outcome: the price is
kept, the submitting trader's orders are preserved verbatim, and every
surviving order id came from the original queue; a dropped level (orderCount
reached 0) held none of the trader's orders provided its count was
consistent. -/
def outcomeRel (tid : Nat) (lv : PriceLevel) : Option PriceLevel → Prop
  | none => lv.orderCount = (lv.queue.length : Int) →
      lv.queue.filter (fun x => x.traderId = tid) = []
  | some lv' => lv'.price = lv.price ∧
      lv'.queue.filter (fun x => x.traderId = tid) =
        lv.queue.filter (fun x => x.traderId = tid) ∧
      (∀ x ∈ lv'.queue, x.id ∈ lv.queue.map (fun o => o.id))

/-- The self-order-preservation core of `outcomeRel`, unconditional. -/
def selfPreserved (tid : Nat) (lv : PriceLevel) : Option PriceLevel → Prop
  | none => lv.queue.filter (fun x => x.traderId = tid) = []
  | some lv' => lv'.queue.filter (fun x => x.traderId = tid) =
      lv.queue.filter (fun x => x.traderId = tid)

/-- Did a submit succeed? -/
def isOkB : Except SubmitError (EngineState × Order × List Trade) → Bool
  | .ok _ => true
  | .error _ => false

/-- The submitted order's status after a successful submit. -/
def statusAfter (r : Except SubmitError (EngineState × Order × List Trade)) :
    Option OrderStatus :=
  match r with
  | .ok (_, o, _) => some o.status
  | .error _ => none

/-- The engine state after a successful submit. -/
def stateAfter (r : Except SubmitError (EngineState × Order × List Trade)) :
    Option EngineState :=
  match r with
  | .ok (st, _, _) => some st
  | .error _ => none

/-- The trades in a list of trades whose bucket for duration `d` is `k`,
restricted to one instrument, in list order. -/
def bucketTrades (instrument : String) (d : Nat) (k : Nat) (trades : List Trade) :
    List Trade :=
  trades.filter (fun t => t.instrument = instrument ∧ truncateToInterval t.timestamp d = k)

/-! ### Claim statements -/

/-- The submit-validation behaviour actually implemented: an unknown
instrument and an unknown trader are rejected with distinct error kinds
before any state is touched. -/
def submitValidationProp (cfg : Option MaintenanceMargins) (st : EngineState)
    (o : Order) (newId now : Nat) : Prop :=
  (lookupBook st.books o.instrument = none →
     submitOrder cfg st o newId now = .error .unknownInstrument) ∧
  (∀ b, lookupBook st.books o.instrument = some b →
     st.traders.any (fun t => t.id = o.traderId) = false →
     submitOrder cfg st o newId now = .error .unknownTrader)

/-- Terminal behaviour of market orders: filled when fully filled, left
pending otherwise, and the submitted order never rests in the book. -/
def marketTerminalProp (cfg : Option MaintenanceMargins) (st : EngineState)
    (o : Order) (newId now : Nat) : Prop :=
  ∀ st' o' trades, submitOrder cfg st o newId now = .ok (st', o', trades) →
    (o'.remainingSize = 0 → o'.status = OrderStatus.filled) ∧
    (¬ o'.remainingSize = 0 → o'.status = OrderStatus.pending) ∧
    (∀ b, lookupBook st'.books o.instrument = some b → ¬ newId ∈ bookOrderIds b)

/-- Leverage handling of updatePosition: a freshly created record carries the
hard-coded default leverage 1; an existing record keeps its leverage. -/
def leverageAdoptionProp (cfg : Option MaintenanceMargins) (ps : PositionMap)
    (tid : Nat) (instr : String) (d P : ℚ) (now : Nat) : Prop :=
  (lookupPos ps (tid, instr) = none →
     (lookupPos (updatePosition cfg ps tid instr d P now).1 (tid, instr)).map
       (fun p => p.leverage) = some 1) ∧
  (∀ pos, lookupPos ps (tid, instr) = some pos →
     (lookupPos (updatePosition cfg ps tid instr d P now).1 (tid, instr)).map
       (fun p => p.leverage) = some pos.leverage)

/-- The position-update arithmetic of §4.2 as implemented by
updatePositionCore. -/
def positionArithmeticProp (cfg : Option MaintenanceMargins) (pos : Position)
    (d P : ℚ) (now : Nat) : Prop :=
  let pos' := updatePositionCore cfg pos d P now
  pos'.size = pos.size + d ∧
  (pos.size = 0 → pos'.entryPrice = P ∧ pos'.realizedPnl = pos.realizedPnl) ∧
  ((0 < pos.size ∧ 0 < d) ∨ (pos.size < 0 ∧ d < 0) →
     pos'.entryPrice = (pos.size * pos.entryPrice + d * P) / (pos.size + d) ∧
     pos'.realizedPnl = pos.realizedPnl) ∧
  ((0 < pos.size ∧ d < 0) ∨ (pos.size < 0 ∧ 0 < d) →
     pos'.realizedPnl = pos.realizedPnl +
       (if 0 < pos.size then P - pos.entryPrice else pos.entryPrice - P) * min |pos.size| |d| ∧
     (((0 < pos.size ∧ pos.size + d < 0) ∨ (pos.size < 0 ∧ 0 < pos.size + d)) →
        pos'.entryPrice = P) ∧
     (¬ ((0 < pos.size ∧ pos.size + d < 0) ∨ (pos.size < 0 ∧ 0 < pos.size + d)) →
        pos'.entryPrice = pos.entryPrice))

/-- Insurance-fund resolution on a forced close. -/
def insuranceFundProp (fund : ℚ) (pos : Position) (mark : ℚ) (now : Nat) : Prop :=
  let r := liquidatePositionCalc fund pos mark now
  let loss := if pos.isLong then (pos.entryPrice - mark) * pos.size
              else (mark - pos.entryPrice) * |pos.size|
  r.2.loss = loss ∧
  (loss ≤ pos.margin → r.1 = fund + (pos.margin - loss) ∧ r.2.insuranceFundHit = false) ∧
  (pos.margin < loss →
     r.1 = max 0 (fund - (loss - pos.margin)) ∧ 0 ≤ r.1 ∧ r.2.insuranceFundHit = true)

/-- No self-match, and the submitting trader's resting orders survive
matching unchanged and in their book positions. -/
def noSelfMatchProp (cfg : Option MaintenanceMargins) (st : MState)
    (book : OrderBook) (o : Order) (now : Nat) : Prop :=
  let r := matchOrder cfg st book o now
  (∀ t ∈ r.2.2.2, ¬ t.buyerId = t.sellerId) ∧
  selfOrders r.2.1.bids o.traderId = selfOrders book.bids o.traderId ∧
  selfOrders r.2.1.asks o.traderId = selfOrders book.asks o.traderId

/-- Candle open/close selection: each candle's close is the price of the
bucket's head trade (the latest) and its open the price of the bucket's last
trade (the earliest), timestamps being extremal under the newest-first
ordering of the ring. -/
def candleOpenCloseProp (instrument : String) (interval : CandleInterval)
    (limit : Nat) (trades : List Trade) (c : Candle) : Prop :=
  let B := bucketTrades instrument (getIntervalDuration interval) c.openTime trades
  ¬ B = [] ∧
  (∃ tl, B.getLast? = some tl ∧ c.openPrice = tl.price ∧ ∀ t ∈ B, tl.timestamp ≤ t.timestamp) ∧
  (∃ th, B.head? = some th ∧ c.closePrice = th.price ∧ ∀ t ∈ B, t.timestamp ≤ th.timestamp)

/-- ClosePosition error atomicity: the error path returns the state
untouched. -/
def closeNoPositionProp (st : EngineState) (tid : Nat) (instr : String)
    (mark : ℚ) : Prop :=
  closePosition st tid instr mark = (st, some "no position to close")

/-! ### Concrete fixtures for counterexamples and witnesses -/

/-- A template order; fixtures override the relevant fields. -/
def baseOrder : Order :=
  { id := 0
    traderId := 0
    instrument := "R.index"
    side := .buy
    otype := .limit
    price := 0
    size := 0
    filledSize := 0
    leverage := 1
    status := .pending
    createdAt := 0
    updatedAt := 0 }

/-- A template trade; fixtures override the relevant fields. -/
def baseTrade : Trade :=
  { id := 0
    instrument := "R.index"
    price := 0
    size := 0
    timestamp := 0
    buyerId := 0
    sellerId := 0
    buyerOrderId := 0
    sellerOrderId := 0
    buyerEffect := .openPos
    sellerEffect := .openPos
    buyerNewPosition := 0
    sellerNewPosition := 0
    aggressorSide := .buy }

/-- A registered trader with the starting balance. -/
def mkTrader (i : Nat) : Trader :=
  { id := i, balance := 10000, totalPnl := 0, tradeCount := 0, maxLeverageUsed := 0 }

/-- Engine state with an empty R.index book and trader 1 registered. -/
def stEmptyBook : EngineState :=
  { books := [("R.index", newOrderBook "R.index")]
    positions := []
    traders := [mkTrader 1]
    recentTrades := []
    nextId := 0 }

/-- An order violating three of the four §4.3.1 validations at once:
size ≤ 0, leverage outside [1, maxLeverage], limit price ≤ 0. -/
def invalidOrder : Order :=
  { baseOrder with traderId := 1, side := .buy, otype := .limit,
                   price := 0, size := -1, leverage := 0 }

/-- A market sell with no opposing liquidity. -/
def marketSellOrder : Order :=
  { baseOrder with traderId := 1, side := .sell, otype := .market, size := 1 }

/-- Resting sell of trader 2 at 100 (size 1, leverage 50). -/
def restC4 : Order :=
  { baseOrder with id := 100, traderId := 2, side := .sell, otype := .limit,
                   price := 100, size := 1, leverage := 50 }

/-- Engine state for the leverage counterexample: trader 2's sell resting. -/
def stC4 : EngineState :=
  { books := [("R.index", (newOrderBook "R.index").addOrder restC4)]
    positions := []
    traders := [mkTrader 1, mkTrader 2]
    recentTrades := []
    nextId := 0 }

/-- Aggressing buy of trader 1 at 100 (size 1, leverage 50). -/
def aggC4 : Order :=
  { baseOrder with traderId := 1, side := .buy, otype := .limit,
                   price := 100, size := 1, leverage := 50 }

/-- Resting sell of trader 2 at 100, size 1 (first in the queue). -/
def restC7a : Order :=
  { baseOrder with id := 101, traderId := 2, side := .sell, otype := .limit,
                   price := 100, size := 1, leverage := 10 }

/-- Resting sell of trader 3 at 100, size 2 (second in the queue). -/
def restC7b : Order :=
  { baseOrder with id := 102, traderId := 3, side := .sell, otype := .limit,
                   price := 100, size := 2, leverage := 10 }

/-- Engine state for the level-size counterexample: two sells queued at the
same level. -/
def stC7 : EngineState :=
  { books := [("R.index", ((newOrderBook "R.index").addOrder restC7a).addOrder restC7b)]
    positions := []
    traders := [mkTrader 1, mkTrader 2, mkTrader 3]
    recentTrades := []
    nextId := 0 }

/-- Aggressing buy of trader 1 fully consuming the first queued sell. -/
def aggC7 : Order :=
  { baseOrder with traderId := 1, side := .buy, otype := .limit,
                   price := 100, size := 1, leverage := 10 }

/-- A resting order persisted with status "pending". -/
def restC2 : Order :=
  { baseOrder with id := 100, traderId := 2, side := .sell, otype := .limit,
                   price := 100, size := 1, status := .pending, createdAt := 3 }

/-- The order store after SaveOrder persisted the resting order. -/
def dbC2 : Db := saveOrder { orders := [] } restC2

/-- Book holding a bid of trader 1 (for the self-trade witness). -/
def bookW8 : OrderBook :=
  (newOrderBook "R.index").addOrder
    { baseOrder with id := 50, traderId := 1, side := .buy, otype := .limit,
                     price := 100, size := 1 }

/-- Matching state with no positions or traders (stats bumps are no-ops). -/
def mstW8 : MState :=
  { positions := [], traders := [], recentTrades := [], nextId := 0 }

/-- Trader 1's market sell aggressing into their own bid. -/
def aggW8 : Order :=
  { baseOrder with id := 51, traderId := 1, side := .sell, otype := .market, size := 1 }

/-- A long position of 2 at entry 100 (for the position-arithmetic witness). -/
def posW5 : Position :=
  { freshPosition 1 "R.index" with size := 2, entryPrice := 100 }

/-- A long position of 1 at entry 100 with margin 1 (insurance-fund witness). -/
def posW6 : Position :=
  { freshPosition 1 "R.index" with size := 1, entryPrice := 100, margin := 1, leverage := 100 }

/-- Engine state holding a flat (size-zero) position record for trader 1. -/
def stW10 : EngineState :=
  { books := [("R.index", newOrderBook "R.index")]
    positions := [((1, "R.index"), { freshPosition 1 "R.index" with size := 0 })]
    traders := [mkTrader 1]
    recentTrades := []
    nextId := 0 }

/-- Newer trade at t = 80 (price 101). -/
def tradeW9a : Trade := { baseTrade with id := 1, price := 101, size := 1, timestamp := 80 }

/-- Older trade at t = 70 (price 105). -/
def tradeW9b : Trade := { baseTrade with id := 2, price := 105, size := 2, timestamp := 70 }

/-- The newest-first ring for the candle witness. -/
def tradesW9 : List Trade := [tradeW9a, tradeW9b]

/-- The single 1-minute candle those two trades produce. -/
def candleW9 : Candle :=
  { instrument := "R.index"
    interval := 60
    openTime := 60
    closeTime := 120
    openPrice := 105
    highPrice := 105
    lowPrice := 101
    closePrice := 101
    volume := 3
    tradeCount := 2 }

/-! ### Basic lemmas -/

/-- Looking up the key just set returns the new value. -/
theorem lookupPos_setPos (ps : PositionMap) (key : Nat × String) (p : Position) :
    lookupPos (setPos ps key p) key = some p := by
  induction ps with
  | nil => simp [setPos, lookupPos]
  | cons kv rest ih =>
    obtain ⟨k, q⟩ := kv
    by_cases h : k = key
    · simp [setPos, h, lookupPos]
    · simp [setPos, h, lookupPos, ih]

/-- updatePositionCore never changes the leverage field. -/
theorem updatePositionCore_leverage (cfg : Option MaintenanceMargins)
    (pos : Position) (d P : ℚ) (now : Nat) :
    (updatePositionCore cfg pos d P now).leverage = pos.leverage := by
  unfold updatePositionCore
  dsimp only
  split_ifs <;> rfl

/-! ### Claim theorems -/

/-- Claim C1, amended (order intake validation): SubmitOrder rejects, with a
distinct error kind and before any state mutation, persistence write or event
emission, exactly two conditions: an unknown instrument and an unknown
trader.  Size, leverage and limit price are not validated by the engine. -/
theorem submit_validation_behaviour (cfg : Option MaintenanceMargins)
    (st : EngineState) (o : Order) (newId now : Nat) :
    submitValidationProp cfg st o newId now := by
  constructor
  · intro h
    unfold submitOrder
    rw [h]
  · intro b hb hfalse
    unfold submitOrder
    rw [hb]
    simp [hfalse]

/-- Witness for C1: on a concrete state, an unregistered trader id is
rejected with the unknown-trader error kind. -/
theorem submit_validation_witness :
    lookupBook stEmptyBook.books "R.index" = some (newOrderBook "R.index") ∧
    stEmptyBook.traders.any (fun t => t.id = 7) = false ∧
    submitOrder none stEmptyBook { baseOrder with traderId := 7, size := 1 } 10 5 =
      .error .unknownTrader :=
  ⟨by decide, by decide,
    (submit_validation_behaviour none stEmptyBook
      { baseOrder with traderId := 7, size := 1 } 10 5).2
      (newOrderBook "R.index") (by decide) (by decide)⟩

/-- Counterexample for C1 as stated: an order with size ≤ 0, leverage outside
[1, maxLeverage] and a non-positive limit price, submitted by a registered
trader, is accepted rather than rejected. -/
theorem submit_accepts_invalid_order :
    isOkB (submitOrder none stEmptyBook invalidOrder 10 5) = true ∧
    invalidOrder.size ≤ 0 ∧ invalidOrder.leverage < 1 ∧
    invalidOrder.otype = OrderType.limit ∧ invalidOrder.price ≤ 0 := by
  refine ⟨by decide, by decide, by decide, by decide, by decide⟩

/-- Claim C2 (code bug, startup recovery): SaveOrder persists resting orders
with status "pending" or "partial", but GetOpenOrders selects rows with
status = 'open', a status no code path ever writes; the replay therefore
rebuilds an empty book even though a resting order was persisted. -/
theorem recovery_loads_no_resting_orders :
    loadOpenOrders dbC2 "R.index" (newOrderBook "R.index") = newOrderBook "R.index" ∧
    dbC2.orders.map (fun r => r.status) = ["pending"] := by
  refine ⟨by decide, by decide⟩

/-- Claim C4, amended (position leverage): a position record created by a
fill carries the hard-coded default leverage 1 — the leverage of the order
that opened it is never consulted — and a fill into an existing record keeps
the record's leverage. -/
theorem position_leverage_default (cfg : Option MaintenanceMargins)
    (ps : PositionMap) (tid : Nat) (instr : String) (d P : ℚ) (now : Nat) :
    leverageAdoptionProp cfg ps tid instr d P now := by
  constructor
  · intro h
    unfold updatePosition
    rw [h]
    simp [lookupPos_setPos, updatePositionCore_leverage, freshPosition]
  · intro pos h
    unfold updatePosition
    rw [h]
    simp [lookupPos_setPos, updatePositionCore_leverage]

/-- Witness for C4: the amended behaviour at a concrete input — a fill of +1
at price 100 into an empty position map yields a record with leverage 1. -/
theorem position_leverage_default_witness :
    lookupPos ([] : PositionMap) (1, "R.index") = none ∧
    (lookupPos (updatePosition none [] 1 "R.index" 1 100 5).1 (1, "R.index")).map
      (fun p => p.leverage) = some 1 :=
  ⟨by decide, (position_leverage_default none [] 1 "R.index" 1 100 5).1 (by decide)⟩

/-- Counterexample for C4 as stated: trader 1 opens a position from flat with
a leverage-50 order; the resulting position's leverage is 1, not 50. -/
theorem position_leverage_not_adopted :
    ((stateAfter (submitOrder none stC4 aggC4 10 5)).bind
        (fun st => (lookupPos st.positions (1, "R.index")).map (fun p => p.leverage))) =
      some 1 ∧
    aggC4.leverage = 50 ∧ ¬ ((1 : Int) = 50) := by
  refine ⟨by decide, by decide, by decide⟩

/-- Claim C5 (position update arithmetic): a fill of signed delta d at price
P updates size to s+d; from flat the entry becomes P; same-sign fills move
the entry to the weighted average with realized P&L unchanged; opposite-sign
fills realize (P−E)·min(|s|,|d|) for longs and (E−P)·min(|s|,|d|) for shorts,
keeping the entry unless the sign flips, in which case the entry becomes P. -/
theorem position_update_arithmetic (cfg : Option MaintenanceMargins)
    (pos : Position) (d P : ℚ) (now : Nat) :
    positionArithmeticProp cfg pos d P now := by
  have hsize : (updatePositionCore cfg pos d P now).size = pos.size + d := by
    unfold updatePositionCore
    dsimp only
    split_ifs <;> rfl
  have hentry : (updatePositionCore cfg pos d P now).entryPrice =
      (if pos.size = 0 then P
       else if (0 < pos.size ∧ 0 < d) ∨ (pos.size < 0 ∧ d < 0) then
         (pos.size * pos.entryPrice + d * P) / (pos.size + d)
       else if ¬ pos.size + d = 0 ∧
           ((0 < pos.size ∧ pos.size + d < 0) ∨ (pos.size < 0 ∧ 0 < pos.size + d)) then P
       else pos.entryPrice) := by
    unfold updatePositionCore
    dsimp only
    split_ifs <;> rfl
  have hrealized : (updatePositionCore cfg pos d P now).realizedPnl =
      (if pos.size = 0 then pos.realizedPnl
       else if (0 < pos.size ∧ 0 < d) ∨ (pos.size < 0 ∧ d < 0) then pos.realizedPnl
       else pos.realizedPnl +
         (if 0 < pos.size then (P - pos.entryPrice) * min |pos.size| |d|
          else (pos.entryPrice - P) * min |pos.size| |d|)) := by
    unfold updatePositionCore
    dsimp only
    split_ifs <;> rfl
  unfold positionArithmeticProp
  refine ⟨hsize, ?_, ?_, ?_⟩
  · intro h0
    exact ⟨by rw [hentry, if_pos h0], by rw [hrealized, if_pos h0]⟩
  · intro hsame
    have h0 : ¬ pos.size = 0 := by
      rcases hsame with ⟨h1, _⟩ | ⟨h1, _⟩
      · exact ne_of_gt h1
      · exact ne_of_lt h1
    exact ⟨by rw [hentry, if_neg h0, if_pos hsame],
           by rw [hrealized, if_neg h0, if_pos hsame]⟩
  · intro hopp
    have h0 : ¬ pos.size = 0 := by
      rcases hopp with ⟨h1, _⟩ | ⟨h1, _⟩
      · exact ne_of_gt h1
      · exact ne_of_lt h1
    have hns : ¬ ((0 < pos.size ∧ 0 < d) ∨ (pos.size < 0 ∧ d < 0)) := by
      rcases hopp with ⟨h1, h2⟩ | ⟨h1, h2⟩ <;>
        rintro (⟨g1, g2⟩ | ⟨g1, g2⟩) <;> linarith
    refine ⟨?_, ?_, ?_⟩
    · rw [hrealized, if_neg h0, if_neg hns]
      by_cases hl : 0 < pos.size
      · rw [if_pos hl, if_pos hl]
      · rw [if_neg hl, if_neg hl]
    · intro hflip
      have hcond : ¬ pos.size + d = 0 ∧
          ((0 < pos.size ∧ pos.size + d < 0) ∨ (pos.size < 0 ∧ 0 < pos.size + d)) := by
        refine ⟨?_, hflip⟩
        rcases hflip with ⟨_, h2⟩ | ⟨_, h2⟩
        · exact ne_of_lt h2
        · exact ne_of_gt h2
      rw [hentry, if_neg h0, if_neg hns, if_pos hcond]
    · intro hnoflip
      have hcond : ¬ (¬ pos.size + d = 0 ∧
          ((0 < pos.size ∧ pos.size + d < 0) ∨ (pos.size < 0 ∧ 0 < pos.size + d))) := by
        intro hc
        exact hnoflip hc.2
      rw [hentry, if_neg h0, if_neg hns, if_neg hcond]

/-- Witness for C5: trader flips a long of 2 at entry 100 by selling 3 at
110 — realized P&L grows by 20 and the residual short's entry is 110. -/
theorem position_update_arithmetic_witness :
    positionArithmeticProp none posW5 (-3) 110 7 :=
  position_update_arithmetic none posW5 (-3) 110 7

/-- Claim C6 (insurance-fund resolution): with loss computed at mark, a loss
within margin pays the surplus into the fund with insurance_fund_hit false; a
loss beyond margin draws the shortfall from the fund, clamping at zero (never
negative), with insurance_fund_hit true. -/
theorem insurance_fund_resolution (fund : ℚ) (pos : Position) (mark : ℚ)
    (now : Nat) : insuranceFundProp fund pos mark now := by
  unfold insuranceFundProp liquidatePositionCalc
  dsimp only
  set L := (if pos.isLong = true then (pos.entryPrice - mark) * pos.size
            else (mark - pos.entryPrice) * |pos.size|) with hL
  refine ⟨?_, ?_, ?_⟩
  · split_ifs <;> rfl
  · intro hle
    rw [if_neg (not_lt.mpr hle)]
    exact ⟨rfl, rfl⟩
  · intro hlt
    rw [if_pos hlt]
    by_cases hsf : L - pos.margin ≤ fund
    · have h0 : (0 : ℚ) ≤ fund - (L - pos.margin) := by linarith
      rw [if_pos hsf]
      exact ⟨(max_eq_right h0).symm, h0, rfl⟩
    · have h0 : fund - (L - pos.margin) ≤ 0 := by
        push_neg at hsf
        linarith
      rw [if_neg hsf]
      exact ⟨(max_eq_left h0).symm, le_refl 0, rfl⟩

/-- Witness for C6: liquidating a long of 1 (entry 100, margin 1) at mark
98.5 costs the fund the 0.5 shortfall and sets insurance_fund_hit. -/
theorem insurance_fund_resolution_witness :
    insuranceFundProp 1000 posW6 (197 / 2) 5 :=
  insurance_fund_resolution 1000 posW6 (197 / 2) 5

/-- Claim C7 (code bug, level size conservation): when a fill fully consumes
a resting order, its FilledSize is advanced before RemoveOrder subtracts the
(now zero) remaining size, so the level's total_size is never reduced; after
trader 1's buy of 1 consumes the first of two sells queued at 100, the
surviving level records total_size 3 while its queue holds remaining size 2. -/
theorem level_size_conservation_violated :
    ((stateAfter (submitOrder none stC7 aggC7 10 5)).bind
        (fun st => (lookupBook st.books "R.index").map
          (fun b => b.asks.map (fun lv => (lv.totalSize, queueRemainingSum lv.queue, lv.orderCount))))) =
      some [((3 : ℚ), (2 : ℚ), (1 : Int))] ∧
    ¬ ((3 : ℚ) = 2) := by
  refine ⟨by decide, by decide⟩

/-- Claim C10 (ClosePosition error atomicity): when the (trader, instrument)
pair has no position record or the record is flat, ClosePosition returns an
error and the engine state — positions, traders, book, trade history — is
returned untouched. -/
theorem close_position_error_atomic (st : EngineState) (tid : Nat)
    (instr : String) (mark : ℚ)
    (h : lookupPos st.positions (tid, instr) = none ∨
         ∃ pos, lookupPos st.positions (tid, instr) = some pos ∧ pos.size = 0) :
    closeNoPositionProp st tid instr mark := by
  unfold closeNoPositionProp closePosition
  rcases h with h | ⟨pos, h, h0⟩
  · rw [h]
  · rw [h]
    simp [h0]

/-- Witness for C10: closing trader 1's flat record on a concrete state
errors and returns the state unchanged. -/
theorem close_position_error_atomic_witness :
    (lookupPos stW10.positions (1, "R.index") = none ∨
      ∃ pos, lookupPos stW10.positions (1, "R.index") = some pos ∧ pos.size = 0) ∧
    closeNoPositionProp stW10 1 "R.index" 99 :=
  ⟨Or.inr ⟨{ freshPosition 1 "R.index" with size := 0 }, by decide, by decide⟩,
    close_position_error_atomic stW10 1 "R.index" 99
      (Or.inr ⟨{ freshPosition 1 "R.index" with size := 0 }, by decide, by decide⟩)⟩

/-! ### Matching-loop lemmas -/

/-- Integer bookkeeping helper: both counters drop by one. -/
theorem deltaKeep {a b c d : Int} (h : a - b = c - d) :
    a - b = (c + 1) - (d + 1) := by omega

/-- Integer bookkeeping helper: the count was pre-decremented. -/
theorem deltaDrop {a b c d : Int} (h : a - (b - 1) = c - d) :
    a - b = c - (d + 1) := by omega

/-- The parties of a created trade are the aggressor's and the resting
order's traders, paired according to the aggressor's side. -/
theorem createTrade_parties (cfg : Option MaintenanceMargins) (st : MState)
    (a r : Order) (p s : ℚ) (now : Nat) :
    ((createTrade cfg st a r p s now).2.buyerId = a.traderId ∧
     (createTrade cfg st a r p s now).2.sellerId = r.traderId) ∨
    ((createTrade cfg st a r p s now).2.buyerId = r.traderId ∧
     (createTrade cfg st a r p s now).2.sellerId = a.traderId) := by
  unfold createTrade
  by_cases h : a.side = Side.buy
  · left
    simp [h]
  · right
    simp [h]

/-- The queue walk never changes the aggressor's identity, status or type. -/
theorem processQueue_agg (cfg : Option MaintenanceMargins) (st : MState)
    (agg : Order) (q : List Order) (ts : ℚ) (count : Int) (now : Nat) :
    (processQueue cfg st agg q ts count now).2.1.traderId = agg.traderId ∧
    (processQueue cfg st agg q ts count now).2.1.status = agg.status ∧
    (processQueue cfg st agg q ts count now).2.1.otype = agg.otype := by
  induction q generalizing st agg ts count with
  | nil => exact ⟨rfl, rfl, rfl⟩
  | cons resting rest ih =>
    unfold processQueue
    dsimp only
    split_ifs with h1 h2 h3 <;> dsimp only
    · exact ih _ _ _ _
    · exact ih _ _ _ _
    · exact ih _ _ _ _
    · exact ⟨rfl, rfl, rfl⟩

/-- Every trade produced by the queue walk has distinct buyer and seller. -/
theorem processQueue_noSelf (cfg : Option MaintenanceMargins) (st : MState)
    (agg : Order) (q : List Order) (ts : ℚ) (count : Int) (now : Nat) :
    ∀ t ∈ (processQueue cfg st agg q ts count now).2.2.1, ¬ t.buyerId = t.sellerId := by
  induction q generalizing st agg ts count with
  | nil => intro t ht; simp [processQueue] at ht
  | cons resting rest ih =>
    unfold processQueue
    dsimp only
    split_ifs with h1 h2 h3 <;> dsimp only
    · exact ih _ _ _ _
    · intro t ht
      rcases List.mem_cons.mp ht with rfl | ht'
      · rcases createTrade_parties cfg st agg resting resting.price
            (min agg.remainingSize resting.remainingSize) now with ⟨hb, hs⟩ | ⟨hb, hs⟩ <;>
          rw [hb, hs]
        · exact fun he => h2 he.symm
        · exact h2
      · exact ih _ _ _ _ t ht'
    · intro t ht
      rcases List.mem_cons.mp ht with rfl | ht'
      · rcases createTrade_parties cfg st agg resting resting.price
            (min agg.remainingSize resting.remainingSize) now with ⟨hb, hs⟩ | ⟨hb, hs⟩ <;>
          rw [hb, hs]
        · exact fun he => h2 he.symm
        · exact h2
      · exact ih _ _ _ _ t ht'
    · intro t ht
      simp at ht

/-- The queue walk keeps the aggressing trader's resting orders verbatim and
in place: filtering the surviving queue to that trader gives the same list as
filtering the original queue. -/
theorem processQueue_selfFilter (cfg : Option MaintenanceMargins) (st : MState)
    (agg : Order) (q : List Order) (ts : ℚ) (count : Int) (now : Nat) :
    (processQueue cfg st agg q ts count now).2.2.2.1.filter
        (fun x => x.traderId = agg.traderId) =
      q.filter (fun x => x.traderId = agg.traderId) := by
  induction q generalizing st agg ts count with
  | nil => rfl
  | cons resting rest ih =>
    unfold processQueue
    dsimp only
    split_ifs with h1 h2 h3 <;> dsimp only
    · rw [List.filter_cons_of_pos (by simp [h2]), List.filter_cons_of_pos (by simp [h2])]
      exact congrArg (fun l => resting :: l) (ih _ _ _ _)
    · rw [List.filter_cons_of_neg (by simp [h2])]
      exact ih _ { agg with
        filledSize := agg.filledSize + min agg.remainingSize resting.remainingSize,
        updatedAt := now } _ _
    · rw [List.filter_cons_of_neg (by simp [h2]), List.filter_cons_of_neg (by simp [h2])]
      exact ih _ { agg with
        filledSize := agg.filledSize + min agg.remainingSize resting.remainingSize,
        updatedAt := now } _ _

/-- The orderCount delta of the queue walk equals its queue-length delta. -/
theorem processQueue_countDelta (cfg : Option MaintenanceMargins) (st : MState)
    (agg : Order) (q : List Order) (ts : ℚ) (count : Int) (now : Nat) :
    (processQueue cfg st agg q ts count now).2.2.2.2.2 - count =
      ((processQueue cfg st agg q ts count now).2.2.2.1.length : Int) - (q.length : Int) := by
  induction q generalizing st agg ts count with
  | nil => simp [processQueue]
  | cons resting rest ih =>
    unfold processQueue
    dsimp only
    split_ifs with h1 h2 h3 <;> dsimp only
    · simp only [List.length_cons, Nat.cast_add, Nat.cast_one]
      exact deltaKeep (ih _ _ _ _)
    · simp only [List.length_cons, Nat.cast_add, Nat.cast_one]
      exact deltaDrop (ih _ _ _ _)
    · simp only [List.length_cons, Nat.cast_add, Nat.cast_one]
      exact deltaKeep (ih _ _ _ _)
    · simp

/-- Every order surviving the queue walk was already in the queue. -/
theorem processQueue_ids (cfg : Option MaintenanceMargins) (st : MState)
    (agg : Order) (q : List Order) (ts : ℚ) (count : Int) (now : Nat) :
    ∀ x ∈ (processQueue cfg st agg q ts count now).2.2.2.1,
      x.id ∈ q.map (fun o => o.id) := by
  induction q generalizing st agg ts count with
  | nil => intro x hx; simp [processQueue] at hx
  | cons resting rest ih =>
    unfold processQueue
    dsimp only
    split_ifs with h1 h2 h3 <;> dsimp only
    · intro x hx
      rcases List.mem_cons.mp hx with rfl | hx'
      · exact List.mem_map_of_mem _ (List.mem_cons_self _ _)
      · exact List.mem_cons_of_mem _ (ih _ _ _ _ x hx')
    · intro x hx
      exact List.mem_cons_of_mem _ (ih _ _ _ _ x hx)
    · intro x hx
      rcases List.mem_cons.mp hx with rfl | hx'
      · show resting.id ∈ List.map (fun o => o.id) (resting :: rest)
        exact List.mem_map_of_mem _ (List.mem_cons_self resting rest)
      · exact List.mem_cons_of_mem _ (ih _ _ _ _ x hx')
    · intro x hx
      exact List.mem_map_of_mem _ hx

/-- Level processing: aggressor untouched, trades have distinct parties, and
the outcome is related to the input level by `outcomeRel`. -/
theorem processLevel_spec (cfg : Option MaintenanceMargins) (st : MState)
    (agg : Order) (lv : PriceLevel) (now : Nat) :
    (processLevel cfg st agg lv now).2.1.traderId = agg.traderId ∧
    (processLevel cfg st agg lv now).2.1.status = agg.status ∧
    (processLevel cfg st agg lv now).2.1.otype = agg.otype ∧
    (∀ t ∈ (processLevel cfg st agg lv now).2.2.1, ¬ t.buyerId = t.sellerId) ∧
    outcomeRel agg.traderId lv (processLevel cfg st agg lv now).2.2.2 := by
  obtain ⟨hA1, hA2, hA3⟩ := processQueue_agg cfg st agg lv.queue lv.totalSize lv.orderCount now
  refine ⟨hA1, hA2, hA3, processQueue_noSelf cfg st agg lv.queue lv.totalSize lv.orderCount now, ?_⟩
  unfold processLevel
  dsimp only
  split_ifs with hz
  · intro hwf
    have hd := processQueue_countDelta cfg st agg lv.queue lv.totalSize lv.orderCount now
    have hlen : (processQueue cfg st agg lv.queue lv.totalSize lv.orderCount now).2.2.2.1.length = 0 := by
      omega
    have hnil := List.length_eq_zero.mp hlen
    have hf := processQueue_selfFilter cfg st agg lv.queue lv.totalSize lv.orderCount now
    rw [hnil] at hf
    exact hf.symm
  · exact ⟨rfl, processQueue_selfFilter cfg st agg lv.queue lv.totalSize lv.orderCount now,
      processQueue_ids cfg st agg lv.queue lv.totalSize lv.orderCount now⟩

/-- The outer level loop: aggressor untouched, trades have distinct parties,
and every recorded outcome comes from a visited level with `outcomeRel`. -/
theorem processLevels_spec (cfg : Option MaintenanceMargins) (st : MState)
    (agg : Order) (lvs : List PriceLevel) (now : Nat) :
    (processLevels cfg st agg lvs now).2.1.traderId = agg.traderId ∧
    (processLevels cfg st agg lvs now).2.1.status = agg.status ∧
    (processLevels cfg st agg lvs now).2.1.otype = agg.otype ∧
    (∀ t ∈ (processLevels cfg st agg lvs now).2.2.1, ¬ t.buyerId = t.sellerId) ∧
    (∀ e ∈ (processLevels cfg st agg lvs now).2.2.2,
      ∃ lv ∈ lvs, e.1 = lv.price ∧ outcomeRel agg.traderId lv e.2) := by
  induction lvs generalizing st agg with
  | nil =>
    refine ⟨rfl, rfl, rfl, ?_, ?_⟩ <;> intro x hx <;> simp [processLevels] at hx
  | cons lv rest ih =>
    unfold processLevels
    dsimp only
    split_ifs with h0
    · refine ⟨rfl, rfl, rfl, ?_, ?_⟩ <;> intro x hx <;> simp at hx
    · obtain ⟨hL1, hL2, hL3, hLt, hLo⟩ := processLevel_spec cfg st agg lv now
      obtain ⟨hR1, hR2, hR3, hRt, hRo⟩ :=
        ih (processLevel cfg st agg lv now).1 (processLevel cfg st agg lv now).2.1
      refine ⟨by rw [hR1, hL1], by rw [hR2, hL2], by rw [hR3, hL3], ?_, ?_⟩
      · intro t ht
        rcases List.mem_append.mp ht with ht' | ht'
        · exact hLt t ht'
        · exact hRt t ht'
      · intro e he
        rcases List.mem_cons.mp he with rfl | he'
        · exact ⟨lv, List.mem_cons_self _ _, rfl, hLo⟩
        · obtain ⟨lv', hlv', hp, hrel⟩ := hRo e he'
          rw [hL1] at hrel
          exact ⟨lv', List.mem_cons_of_mem _ hlv', hp, hrel⟩

/-- A successful outcome lookup yields an entry keyed by the queried price. -/
theorem lookupOutcome_mem (outs : List (ℚ × Option PriceLevel)) (p : ℚ)
    (o : Option PriceLevel) (h : lookupOutcome outs p = some o) : (p, o) ∈ outs := by
  induction outs with
  | nil => cases h
  | cons e rest ih =>
    obtain ⟨q, oo⟩ := e
    unfold lookupOutcome at h
    split_ifs at h with hq
    · cases h
      rw [← hq]
      exact List.mem_cons_self _ _
    · exact List.mem_cons_of_mem _ (ih h)

/-- The selection step is a permutation of its input. -/
theorem pickBest_perm (better : ℚ → ℚ → Bool) (b : PriceLevel)
    (l : List PriceLevel) :
    List.Perm ((pickBest better b l).1 :: (pickBest better b l).2) (b :: l) := by
  induction l generalizing b with
  | nil => exact List.Perm.refl _
  | cons lv rest ih =>
    unfold pickBest
    by_cases h : better lv.price b.price
    · rw [if_pos h]
      dsimp only
      have step : List.Perm
          ((pickBest better lv rest).1 :: b :: (pickBest better lv rest).2)
          (b :: (pickBest better lv rest).1 :: (pickBest better lv rest).2) :=
        List.Perm.swap b (pickBest better lv rest).1 _
      exact step.trans ((ih lv).cons b)
    · rw [if_neg h]
      dsimp only
      have step : List.Perm
          ((pickBest better b rest).1 :: lv :: (pickBest better b rest).2)
          (lv :: (pickBest better b rest).1 :: (pickBest better b rest).2) :=
        List.Perm.swap lv (pickBest better b rest).1 _
      have mid : List.Perm
          (lv :: (pickBest better b rest).1 :: (pickBest better b rest).2)
          (lv :: b :: rest) := (ih b).cons lv
      exact (step.trans mid).trans (List.Perm.swap b lv rest)

/-- The selection sort only rearranges levels. -/
theorem mem_sortLevelsBy (better : ℚ → ℚ → Bool) (fuel : Nat)
    (l : List PriceLevel) (x : PriceLevel)
    (h : x ∈ sortLevelsBy better fuel l) : x ∈ l := by
  induction fuel generalizing l with
  | zero =>
    cases l with
    | nil => exact h
    | cons a r => exact h
  | succ n ih =>
    cases l with
    | nil => exact h
    | cons lv rest =>
      unfold sortLevelsBy at h
      dsimp only at h
      have hperm := pickBest_perm better lv rest
      rcases List.mem_cons.mp h with rfl | h'
      · exact hperm.subset (List.mem_cons_self _ _)
      · exact hperm.subset (List.mem_cons_of_mem _ (ih _ h'))

/-- Matchable ask levels come from the ask side. -/
theorem mem_matchableAsks (b : OrderBook) (p : ℚ) (lv : PriceLevel)
    (h : lv ∈ b.matchableAsks p) : lv ∈ b.asks :=
  (List.mem_filter.mp (mem_sortLevelsBy _ _ _ _ h)).1

/-- Matchable bid levels come from the bid side. -/
theorem mem_matchableBids (b : OrderBook) (p : ℚ) (lv : PriceLevel)
    (h : lv ∈ b.matchableBids p) : lv ∈ b.bids :=
  (List.mem_filter.mp (mem_sortLevelsBy _ _ _ _ h)).1

/-- On a side with pairwise-distinct prices, a level is determined by its
price. -/
theorem eq_of_mem_price {side : List PriceLevel} (h : sidePricesNodup side)
    {x y : PriceLevel} (hx : x ∈ side) (hy : y ∈ side) (hp : x.price = y.price) :
    x = y := by
  induction side with
  | nil => cases hx
  | cons lv rest ih =>
    have hcons := List.nodup_cons.mp h
    rcases List.mem_cons.mp hx with rfl | hx' <;> rcases List.mem_cons.mp hy with rfl | hy'
    · rfl
    · exact absurd (List.mem_map.mpr ⟨y, hy', hp.symm⟩) hcons.1
    · exact absurd (List.mem_map.mpr ⟨x, hx', hp⟩) hcons.1
    · exact ih hcons.2 hx' hy'

/-- Splitting `selfOrders` over a cons. -/
theorem selfOrders_cons (lv : PriceLevel) (l : List PriceLevel) (tid : Nat) :
    selfOrders (lv :: l) tid =
      lv.queue.filter (fun o => o.traderId = tid) ++ selfOrders l tid := by
  simp [selfOrders, sideOrders]

/-- One step of `applyOutcomes`. -/
theorem applyOutcomes_cons (lv : PriceLevel) (rest : List PriceLevel)
    (outs : List (ℚ × Option PriceLevel)) :
    applyOutcomes (lv :: rest) outs =
      (match lookupOutcome outs lv.price with
       | none => some lv
       | some o => o).toList ++ applyOutcomes rest outs := by
  unfold applyOutcomes
  rw [List.filterMap_cons]
  cases lookupOutcome outs lv.price with
  | none => rfl
  | some o => cases o <;> rfl

/-- Folding the outcomes back preserves the submitting trader's orders when
each looked-up outcome preserves them at its level. -/
theorem applyOutcomes_selfOrders (tid : Nat) (outs : List (ℚ × Option PriceLevel))
    (side : List PriceLevel)
    (h : ∀ lv ∈ side, ∀ o, lookupOutcome outs lv.price = some o → selfPreserved tid lv o) :
    selfOrders (applyOutcomes side outs) tid = selfOrders side tid := by
  induction side with
  | nil => rfl
  | cons lv rest ih =>
    have hrest := fun lv' hm => h lv' (List.mem_cons_of_mem _ hm)
    rw [applyOutcomes_cons]
    cases hlk : lookupOutcome outs lv.price with
    | none =>
      dsimp only [Option.toList]
      rw [List.singleton_append, selfOrders_cons, selfOrders_cons, ih hrest]
    | some o =>
      have hpres := h lv (List.mem_cons_self _ _) o hlk
      cases o with
      | none =>
        dsimp only [Option.toList]
        rw [List.nil_append, selfOrders_cons, ih hrest]
        have hempty : lv.queue.filter (fun x => x.traderId = tid) = [] := hpres
        rw [hempty, List.nil_append]
      | some lv' =>
        dsimp only [Option.toList]
        rw [List.singleton_append, selfOrders_cons, selfOrders_cons, ih hrest]
        have hsame : lv'.queue.filter (fun x => x.traderId = tid) =
            lv.queue.filter (fun x => x.traderId = tid) := hpres
        rw [hsame]

/-- Membership in `sideOrders` over a cons. -/
theorem mem_sideOrders_cons {x : Order} {lv : PriceLevel} {rest : List PriceLevel} :
    x ∈ sideOrders (lv :: rest) ↔ x ∈ lv.queue ∨ x ∈ sideOrders rest := by
  simp [sideOrders]

/-- Folding the outcomes back keeps order ids inside a superset `I` when the
original side and every looked-up outcome stay inside `I`. -/
theorem applyOutcomes_ids (I : List Nat) (outs : List (ℚ × Option PriceLevel))
    (side : List PriceLevel)
    (hside : ∀ x ∈ sideOrders side, x.id ∈ I)
    (hout : ∀ lv ∈ side, ∀ lv', lookupOutcome outs lv.price = some (some lv') →
      ∀ x ∈ lv'.queue, x.id ∈ I) :
    ∀ x ∈ sideOrders (applyOutcomes side outs), x.id ∈ I := by
  induction side with
  | nil => intro x hx; simp [applyOutcomes, sideOrders] at hx
  | cons lv rest ih =>
    have hsideRest : ∀ x ∈ sideOrders rest, x.id ∈ I := by
      intro x hx
      exact hside x (mem_sideOrders_cons.mpr (Or.inr hx))
    have houtRest := fun lv' hm => hout lv' (List.mem_cons_of_mem _ hm)
    intro x hx
    rw [applyOutcomes_cons] at hx
    cases hlk : lookupOutcome outs lv.price with
    | none =>
      rw [hlk] at hx
      dsimp only [Option.toList] at hx
      rcases mem_sideOrders_cons.mp (by exact hx) with hx' | hx'
      · exact hside x (mem_sideOrders_cons.mpr (Or.inl hx'))
      · exact ih hsideRest houtRest x hx'
    | some o =>
      rw [hlk] at hx
      cases o with
      | none =>
        dsimp only [Option.toList] at hx
        rw [List.nil_append] at hx
        exact ih hsideRest houtRest x hx
      | some lv' =>
        dsimp only [Option.toList] at hx
        rw [List.singleton_append] at hx
        rcases mem_sideOrders_cons.mp (by exact hx) with hx' | hx'
        · exact hout lv (List.mem_cons_self _ _) lv' hlk x hx'
        · exact ih hsideRest houtRest x hx'

/-- Pointwise form of the outcome relation for a processed side: every level
whose price has a recorded outcome preserves the submitting trader's orders. -/
theorem pointwise_selfPreserved (cfg : Option MaintenanceMargins) (st : MState)
    (agg : Order) (now : Nat) (side lvs : List PriceLevel)
    (hsub : ∀ lv ∈ lvs, lv ∈ side)
    (hwf : sideWellformed side) (hn : sidePricesNodup side) :
    ∀ lv ∈ side, ∀ oo,
      lookupOutcome (processLevels cfg st agg lvs now).2.2.2 lv.price = some oo →
      selfPreserved agg.traderId lv oo := by
  intro lv hlv oo hlk
  obtain ⟨lv'', hlv'', hp, hrel⟩ :=
    (processLevels_spec cfg st agg lvs now).2.2.2.2 _ (lookupOutcome_mem _ _ _ hlk)
  have heq : lv'' = lv := eq_of_mem_price hn (hsub lv'' hlv'') hlv hp.symm
  rw [heq] at hrel
  cases oo with
  | none => exact hrel (hwf lv hlv)
  | some lv' => exact hrel.2.1

/-- Pointwise id-subset form of the outcome relation for a processed side. -/
theorem pointwise_ids (cfg : Option MaintenanceMargins) (st : MState)
    (agg : Order) (now : Nat) (side lvs : List PriceLevel)
    (hsub : ∀ lv ∈ lvs, lv ∈ side) :
    ∀ lv ∈ side, ∀ lv',
      lookupOutcome (processLevels cfg st agg lvs now).2.2.2 lv.price = some (some lv') →
      ∀ x ∈ lv'.queue, x.id ∈ (sideOrders side).map (fun o => o.id) := by
  intro lv hlv lv' hlk x hx
  obtain ⟨lv'', hlv'', hp, hrel⟩ :=
    (processLevels_spec cfg st agg lvs now).2.2.2.2 _ (lookupOutcome_mem _ _ _ hlk)
  have hid : x.id ∈ lv''.queue.map (fun o => o.id) := hrel.2.2 x hx
  obtain ⟨y, hy, hyid⟩ := List.mem_map.mp hid
  rw [← hyid]
  exact List.mem_map_of_mem _ (List.mem_flatMap.mpr ⟨lv'', hsub lv'' hlv'', hy⟩)

/-- Looking up the instrument just set returns the new book. -/
theorem lookupBook_setBook (bs : List (String × OrderBook)) (k : String)
    (b : OrderBook) : lookupBook (setBook bs k b) k = some b := by
  induction bs with
  | nil => simp [setBook, lookupBook]
  | cons kv rest ih =>
    obtain ⟨k0, b0⟩ := kv
    by_cases h : k0 = k
    · simp [setBook, h, lookupBook]
    · simp [setBook, h, lookupBook, ih]

/-- matchOrder never changes the aggressor's identity, status or type. -/
theorem matchOrder_agg (cfg : Option MaintenanceMargins) (st : MState)
    (book : OrderBook) (o : Order) (now : Nat) :
    (matchOrder cfg st book o now).2.2.1.traderId = o.traderId ∧
    (matchOrder cfg st book o now).2.2.1.status = o.status ∧
    (matchOrder cfg st book o now).2.2.1.otype = o.otype := by
  unfold matchOrder
  dsimp only
  obtain ⟨h1, h2, h3⟩ := processLevels_spec cfg st o
    (match o.side, o.otype with
      | .buy, .market => book.matchableAsks marketBuyCap
      | .buy, .limit => book.matchableAsks o.price
      | .sell, .market => book.matchableBids 0
      | .sell, .limit => book.matchableBids o.price) now
  exact ⟨h1, h2, h3.1⟩

/-- All trades of matchOrder have distinct parties. -/
theorem matchOrder_noSelf (cfg : Option MaintenanceMargins) (st : MState)
    (book : OrderBook) (o : Order) (now : Nat) :
    ∀ t ∈ (matchOrder cfg st book o now).2.2.2, ¬ t.buyerId = t.sellerId := by
  unfold matchOrder
  dsimp only
  exact (processLevels_spec cfg st o _ now).2.2.2.1

/-- Orders resting in the post-match book were in the book before. -/
theorem matchOrder_ids (cfg : Option MaintenanceMargins) (st : MState)
    (book : OrderBook) (o : Order) (now : Nat) (oid : Nat)
    (h : oid ∈ bookOrderIds (matchOrder cfg st book o now).2.1) :
    oid ∈ bookOrderIds book := by
  unfold bookOrderIds at h ⊢
  rw [List.map_append, List.mem_append] at h
  rw [List.map_append, List.mem_append]
  unfold matchOrder at h
  dsimp only at h
  cases hside : o.side with
  | buy =>
    rw [hside] at h
    dsimp only at h
    rcases h with h | h
    · exact Or.inl h
    · right
      obtain ⟨x, hx, hxid⟩ := List.mem_map.mp h
      rw [← hxid]
      refine applyOutcomes_ids _ _ book.asks (fun y hy => List.mem_map_of_mem _ hy) ?_ x hx
      intro lv hlv lv' hlk y hy
      cases hty : o.otype with
      | market =>
        rw [hty] at hlk
        exact pointwise_ids cfg st o now book.asks (book.matchableAsks marketBuyCap)
          (fun z hz => mem_matchableAsks book marketBuyCap z hz) lv hlv lv' hlk y hy
      | limit =>
        rw [hty] at hlk
        exact pointwise_ids cfg st o now book.asks (book.matchableAsks o.price)
          (fun z hz => mem_matchableAsks book o.price z hz) lv hlv lv' hlk y hy
  | sell =>
    rw [hside] at h
    dsimp only at h
    rcases h with h | h
    · left
      obtain ⟨x, hx, hxid⟩ := List.mem_map.mp h
      rw [← hxid]
      refine applyOutcomes_ids _ _ book.bids (fun y hy => List.mem_map_of_mem _ hy) ?_ x hx
      intro lv hlv lv' hlk y hy
      cases hty : o.otype with
      | market =>
        rw [hty] at hlk
        exact pointwise_ids cfg st o now book.bids (book.matchableBids 0)
          (fun z hz => mem_matchableBids book 0 z hz) lv hlv lv' hlk y hy
      | limit =>
        rw [hty] at hlk
        exact pointwise_ids cfg st o now book.bids (book.matchableBids o.price)
          (fun z hz => mem_matchableBids book o.price z hz) lv hlv lv' hlk y hy
    · exact Or.inr h


/-- Claim C8 (no self-match): for every submitted order and every book state,
every trade produced by matching has buyer ≠ seller, and the submitting
trader's resting orders are skipped, remaining in the book in their queue
positions, unchanged. -/
theorem no_self_match (cfg : Option MaintenanceMargins) (st : MState)
    (book : OrderBook) (o : Order) (now : Nat)
    (hwfB : sideWellformed book.bids) (hwfA : sideWellformed book.asks)
    (hnB : sidePricesNodup book.bids) (hnA : sidePricesNodup book.asks) :
    noSelfMatchProp cfg st book o now := by
  unfold noSelfMatchProp
  refine ⟨matchOrder_noSelf cfg st book o now, ?_, ?_⟩
  · unfold matchOrder
    dsimp only
    cases hside : o.side with
    | buy => rfl
    | sell =>
      dsimp only
      cases hty : o.otype with
      | limit =>
        exact applyOutcomes_selfOrders o.traderId _ book.bids
          (pointwise_selfPreserved cfg st o now book.bids (book.matchableBids o.price)
            (fun z hz => mem_matchableBids book o.price z hz) hwfB hnB)
      | market =>
        exact applyOutcomes_selfOrders o.traderId _ book.bids
          (pointwise_selfPreserved cfg st o now book.bids (book.matchableBids 0)
            (fun z hz => mem_matchableBids book 0 z hz) hwfB hnB)
  · unfold matchOrder
    dsimp only
    cases hside : o.side with
    | sell => rfl
    | buy =>
      dsimp only
      cases hty : o.otype with
      | limit =>
        exact applyOutcomes_selfOrders o.traderId _ book.asks
          (pointwise_selfPreserved cfg st o now book.asks (book.matchableAsks o.price)
            (fun z hz => mem_matchableAsks book o.price z hz) hwfA hnA)
      | market =>
        exact applyOutcomes_selfOrders o.traderId _ book.asks
          (pointwise_selfPreserved cfg st o now book.asks (book.matchableAsks marketBuyCap)
            (fun z hz => mem_matchableAsks book marketBuyCap z hz) hwfA hnA)

/-- Witness for C8: trader 1's market sell against their own resting bid
produces no trade and leaves the bid in place. -/
theorem no_self_match_witness :
    (sideWellformed bookW8.bids ∧ sideWellformed bookW8.asks ∧
     sidePricesNodup bookW8.bids ∧ sidePricesNodup bookW8.asks) ∧
    noSelfMatchProp none mstW8 bookW8 aggW8 5 :=
  ⟨⟨by unfold sideWellformed; decide, by unfold sideWellformed; decide,
    by unfold sidePricesNodup; decide, by unfold sidePricesNodup; decide⟩,
    no_self_match none mstW8 bookW8 aggW8 5 (by unfold sideWellformed; decide)
      (by unfold sideWellformed; decide) (by unfold sidePricesNodup; decide)
      (by unfold sidePricesNodup; decide)⟩

/-- Claim C3, amended (market order terminal status): after submit returns, a
market order is filled when fully filled, otherwise its status remains
pending (not cancelled), and its remainder never rests in the book. -/
theorem market_order_terminal_status (cfg : Option MaintenanceMargins)
    (st : EngineState) (o : Order) (newId now : Nat)
    (hm : o.otype = OrderType.market)
    (hfresh : ∀ b, lookupBook st.books o.instrument = some b →
      ¬ newId ∈ bookOrderIds b) :
    marketTerminalProp cfg st o newId now := by
  unfold marketTerminalProp
  intro st' o' trades hok
  unfold submitOrder at hok
  cases hbook : lookupBook st.books o.instrument with
  | none =>
    rw [hbook] at hok
    cases hok
  | some book =>
    rw [hbook] at hok
    dsimp only at hok
    by_cases htr : st.traders.any (fun t => t.id = o.traderId) = true
    case neg =>
      rw [if_neg htr] at hok
      cases hok
    case pos =>
      rw [if_pos htr] at hok
      obtain ⟨hA1, hA2, hA3⟩ := matchOrder_agg cfg
        { positions := st.positions, traders := st.traders,
          recentTrades := st.recentTrades, nextId := st.nextId } book
        { o with id := newId, status := OrderStatus.pending, filledSize := 0,
                 createdAt := now, updatedAt := now } now
      have hcond : ¬ (0 < (matchOrder cfg
          { positions := st.positions, traders := st.traders,
            recentTrades := st.recentTrades, nextId := st.nextId } book
          { o with id := newId, status := OrderStatus.pending, filledSize := 0,
                   createdAt := now, updatedAt := now } now).2.2.1.remainingSize ∧
          (matchOrder cfg
          { positions := st.positions, traders := st.traders,
            recentTrades := st.recentTrades, nextId := st.nextId } book
          { o with id := newId, status := OrderStatus.pending, filledSize := 0,
                   createdAt := now, updatedAt := now } now).2.2.1.otype = OrderType.limit) := by
        rintro ⟨-, hl⟩
        rw [hA3] at hl
        dsimp only at hl
        rw [hm] at hl
        exact absurd hl (by decide)
      rw [if_neg hcond] at hok
      by_cases hrem : (matchOrder cfg
          { positions := st.positions, traders := st.traders,
            recentTrades := st.recentTrades, nextId := st.nextId } book
          { o with id := newId, status := OrderStatus.pending, filledSize := 0,
                   createdAt := now, updatedAt := now } now).2.2.1.remainingSize = 0
      case pos =>
        rw [if_pos hrem] at hok
        dsimp only at hok
        rw [Except.ok.injEq, Prod.mk.injEq, Prod.mk.injEq] at hok
        obtain ⟨hst, ho3, htrades⟩ := hok
        refine ⟨?_, ?_, ?_⟩
        · intro _
          rw [← ho3]
        · intro hne
          exfalso
          apply hne
          rw [← ho3]
          exact hrem
        · intro b hb
          rw [← hst] at hb
          dsimp only at hb
          rw [lookupBook_setBook] at hb
          cases hb
          intro hmem
          exact hfresh book hbook (matchOrder_ids cfg _ book _ now newId hmem)
      case neg =>
        rw [if_neg hrem] at hok
        dsimp only at hok
        rw [Except.ok.injEq, Prod.mk.injEq, Prod.mk.injEq] at hok
        obtain ⟨hst, ho3, htrades⟩ := hok
        refine ⟨?_, ?_, ?_⟩
        · intro h0
          exfalso
          apply hrem
          rw [ho3]
          exact h0
        · intro _
          rw [← ho3, hA2]
        · intro b hb
          rw [← hst] at hb
          dsimp only at hb
          rw [lookupBook_setBook] at hb
          cases hb
          intro hmem
          exact hfresh book hbook (matchOrder_ids cfg _ book _ now newId hmem)

/-- Witness for C3: the amended behaviour on a concrete empty book — trader
1's market sell is left pending with nothing resting. -/
theorem market_order_terminal_witness :
    marketSellOrder.otype = OrderType.market ∧
    marketTerminalProp none stEmptyBook marketSellOrder 10 5 :=
  ⟨by decide, market_order_terminal_status none stEmptyBook marketSellOrder 10 5 (by decide)
    (by
      intro b hb
      have hlb : lookupBook stEmptyBook.books marketSellOrder.instrument =
          some (newOrderBook "R.index") := by decide
      rw [hlb] at hb
      cases hb
      decide)⟩

/-- Counterexample for C3 as stated: a market sell with no opposing liquidity
ends with status pending, not cancelled. -/
theorem market_order_left_pending :
    statusAfter (submitOrder none stEmptyBook marketSellOrder 10 5) =
      some OrderStatus.pending ∧
    ¬ statusAfter (submitOrder none stEmptyBook marketSellOrder 10 5) =
      some OrderStatus.cancelled := by
  refine ⟨by decide, by decide⟩

/-! ### Candle lemmas -/

/-- Bucket filter over a cons. -/
theorem bucketTrades_cons (instr : String) (d k : Nat) (t : Trade) (ts : List Trade) :
    bucketTrades instr d k (t :: ts) =
      if t.instrument = instr ∧ truncateToInterval t.timestamp d = k then
        t :: bucketTrades instr d k ts
      else bucketTrades instr d k ts := by
  by_cases h : t.instrument = instr ∧ truncateToInterval t.timestamp d = k
  · rw [if_pos h]
    exact List.filter_cons_of_pos (by simpa using h)
  · rw [if_neg h]
    exact List.filter_cons_of_neg (by simpa using h)

/-- Unfolding lemma for lookup over a cons cell. -/
theorem lookupCandle_cons (a : Nat) (b : Candle) (l : List (Nat × Candle)) (k : Nat) :
    lookupCandle ((a, b) :: l) k = if a = k then some b else lookupCandle l k := rfl

/-- Lookup after the in-place bucket update. -/
theorem lookupCandle_mapUpdate (m : List (Nat × Candle)) (key k : Nat) (t : Trade) :
    lookupCandle (m.map (fun p => if p.1 = key then (p.1, updCandle p.2 t) else p)) k =
      if k = key then (lookupCandle m k).map (fun c => updCandle c t)
      else lookupCandle m k := by
  induction m with
  | nil =>
    rw [List.map_nil]
    show (none : Option Candle) = _
    split_ifs <;> rfl
  | cons e rest ih =>
    obtain ⟨ek, ec⟩ := e
    rw [List.map_cons]
    dsimp only
    by_cases h1 : ek = key
    · rw [if_pos h1]
      simp only [lookupCandle_cons, ih]
      by_cases h2 : ek = k
      · have hkk : k = key := h2 ▸ h1
        rw [if_pos h2, if_pos hkk, if_pos h2]
        rfl
      · rw [if_neg h2, if_neg h2]
    · rw [if_neg h1]
      simp only [lookupCandle_cons, ih]
      by_cases h2 : ek = k
      · have hkk : ¬ k = key := fun h => h1 (h2.trans h)
        rw [if_pos h2, if_neg hkk, if_pos h2]
      · rw [if_neg h2, if_neg h2]

/-- Lookup after appending a fresh bucket. -/
theorem lookupCandle_append (m : List (Nat × Candle)) (key k : Nat) (c : Candle) :
    lookupCandle (m ++ [(key, c)]) k =
      match lookupCandle m k with
      | some c' => some c'
      | none => if key = k then some c else none := by
  induction m with
  | nil => rfl
  | cons e rest ih =>
    obtain ⟨ek, ec⟩ := e
    rw [List.cons_append, lookupCandle_cons, lookupCandle_cons]
    by_cases h : ek = k
    · rw [if_pos h, if_pos h]
    · rw [if_neg h, if_neg h, ih]

/-- One step of the candle builder, seen through lookup. -/
theorem lookupCandle_step (instr : String) (d : Nat) (m : List (Nat × Candle))
    (t : Trade) (k : Nat) :
    lookupCandle (stepCandle instr d m t) k =
      if t.instrument = instr ∧ truncateToInterval t.timestamp d = k then
        match lookupCandle m k with
        | some c => some (updCandle c t)
        | none => some (newCandle instr d k t)
      else lookupCandle m k := by
  unfold stepCandle
  by_cases hi : t.instrument = instr
  · rw [if_pos hi]
    dsimp only
    by_cases hk : truncateToInterval t.timestamp d = k
    · rw [if_pos ⟨hi, hk⟩]
      subst hk
      cases hm : lookupCandle m (truncateToInterval t.timestamp d) with
      | some c0 =>
        rw [lookupCandle_mapUpdate, if_pos rfl, hm]
        rfl
      | none =>
        rw [lookupCandle_append, hm]
        simp
    · rw [if_neg (fun hc => hk hc.2)]
      cases hm : lookupCandle m (truncateToInterval t.timestamp d) with
      | some c0 =>
        rw [lookupCandle_mapUpdate, if_neg (fun hc => hk hc.symm)]
      | none =>
        rw [lookupCandle_append]
        cases hmk : lookupCandle m k with
        | some c1 => rfl
        | none => rw [if_neg hk]
  · rw [if_neg hi, if_neg (fun hc => hi hc.1)]

/-- Characterisation of the candle-map lookup after folding a trade list. -/
theorem lookupCandle_foldl (instr : String) (d : Nat) (ts : List Trade)
    (m : List (Nat × Candle)) (k : Nat) :
    lookupCandle (ts.foldl (stepCandle instr d) m) k =
      match lookupCandle m k, bucketTrades instr d k ts with
      | some c, B => some (B.foldl updCandle c)
      | none, [] => none
      | none, t :: rest => some (rest.foldl updCandle (newCandle instr d k t)) := by
  induction ts generalizing m with
  | nil =>
    show lookupCandle m k = _
    cases lookupCandle m k <;> rfl
  | cons t ts ih =>
    rw [List.foldl_cons, ih (stepCandle instr d m t), lookupCandle_step, bucketTrades_cons]
    by_cases hcond : t.instrument = instr ∧ truncateToInterval t.timestamp d = k
    · rw [if_pos hcond, if_pos hcond]
      cases hm : lookupCandle m k with
      | some c => rfl
      | none => rfl
    · rw [if_neg hcond, if_neg hcond]

/-- Folding older trades into a candle never touches its close price. -/
theorem foldl_updCandle_close (c : Candle) (ts : List Trade) :
    (ts.foldl updCandle c).closePrice = c.closePrice := by
  induction ts generalizing c with
  | nil => rfl
  | cons t ts ih => exact (ih (updCandle c t)).trans rfl

/-- Folding older trades into a candle leaves its open price equal to the
price of the last trade folded. -/
theorem foldl_updCandle_open :
    ∀ (ts : List Trade) (c : Candle) (tl : Trade), ts.getLast? = some tl →
      (ts.foldl updCandle c).openPrice = tl.price := by
  intro ts
  induction ts with
  | nil =>
    intro c tl h
    cases h
  | cons t rest ih =>
    intro c tl h
    cases rest with
    | nil =>
      cases h
      rfl
    | cons t2 ts2 =>
      rw [List.getLast?_cons_cons] at h
      rw [List.foldl_cons]
      exact ih (updCandle c t) tl h

/-- Folding older trades into a candle never touches its open time. -/
theorem foldl_updCandle_openTime (c : Candle) (ts : List Trade) :
    (ts.foldl updCandle c).openTime = c.openTime := by
  induction ts generalizing c with
  | nil => rfl
  | cons t ts ih => exact (ih (updCandle c t)).trans rfl

/-- Every candle-map entry is keyed by its candle's open time. -/
theorem foldl_entry_key (instr : String) (d : Nat) (ts : List Trade)
    (m : List (Nat × Candle)) (h : ∀ e ∈ m, e.1 = e.2.openTime) :
    ∀ e ∈ ts.foldl (stepCandle instr d) m, e.1 = e.2.openTime := by
  induction ts generalizing m with
  | nil => exact h
  | cons t ts ih =>
    rw [List.foldl_cons]
    refine ih _ ?_
    intro e he
    unfold stepCandle at he
    split_ifs at he with hi
    · dsimp only at he
      cases hlk : lookupCandle m (truncateToInterval t.timestamp d) with
      | some c0 =>
        rw [hlk] at he
        dsimp only at he
        obtain ⟨p, hp, hpe⟩ := List.mem_map.mp he
        by_cases hpk : p.1 = truncateToInterval t.timestamp d
        · rw [if_pos hpk] at hpe
          rw [← hpe]
          exact h p hp
        · rw [if_neg hpk] at hpe
          rw [← hpe]
          exact h p hp
      | none =>
        rw [hlk] at he
        dsimp only at he
        rcases List.mem_append.mp he with he' | he'
        · exact h e he'
        · rcases List.mem_cons.mp he' with rfl | habs
          · rfl
          · cases habs
    · exact h e he

/-- A failed lookup means the key is absent. -/
theorem lookupCandle_none_notMem (m : List (Nat × Candle)) (k : Nat)
    (h : lookupCandle m k = none) : ¬ k ∈ m.map Prod.fst := by
  induction m with
  | nil => simp
  | cons e rest ih =>
    obtain ⟨ek, ec⟩ := e
    rw [lookupCandle_cons] at h
    split_ifs at h with hek
    intro hmem
    rcases List.mem_cons.mp hmem with heq | hmem'
    · exact hek heq.symm
    · exact ih h hmem'

/-- The candle map's keys stay pairwise distinct. -/
theorem foldl_keys_nodup (instr : String) (d : Nat) (ts : List Trade)
    (m : List (Nat × Candle)) (h : (m.map Prod.fst).Nodup) :
    ((ts.foldl (stepCandle instr d) m).map Prod.fst).Nodup := by
  induction ts generalizing m with
  | nil => exact h
  | cons t ts ih =>
    rw [List.foldl_cons]
    refine ih _ ?_
    unfold stepCandle
    split_ifs with hi
    · dsimp only
      cases hlk : lookupCandle m (truncateToInterval t.timestamp d) with
      | some c0 =>
        dsimp only
        have hkeys : (m.map (fun p =>
            if p.1 = truncateToInterval t.timestamp d then (p.1, updCandle p.2 t) else p)).map
              Prod.fst = m.map Prod.fst := by
          rw [List.map_map]
          refine List.map_congr_left ?_
          intro p hp
          by_cases hpk : p.1 = truncateToInterval t.timestamp d
          · simp [hpk]
          · simp [hpk]
        rw [hkeys]
        exact h
      | none =>
        dsimp only
        rw [List.map_append, List.nodup_append]
        refine ⟨h, List.nodup_singleton _, ?_⟩
        intro a ha hb
        rcases List.mem_cons.mp hb with heq | habs
        · rw [heq] at ha
          exact lookupCandle_none_notMem m _ hlk ha
        · cases habs
    · exact h

/-- On a nodup-keyed association list, membership gives the lookup. -/
theorem lookupCandle_of_mem_nodup (m : List (Nat × Candle))
    (h : (m.map Prod.fst).Nodup) {k : Nat} {c : Candle} (hm : (k, c) ∈ m) :
    lookupCandle m k = some c := by
  induction m with
  | nil => cases hm
  | cons e rest ih =>
    obtain ⟨ek, ec⟩ := e
    have hcons := List.nodup_cons.mp h
    rcases List.mem_cons.mp hm with he | hm'
    · cases he
      simp [lookupCandle]
    · have hkne : ¬ ek = k := by
        intro he
        subst he
        have hin : (ek, c).1 ∈ List.map Prod.fst rest := List.mem_map_of_mem Prod.fst hm'
        exact hcons.1 hin
      simp only [lookupCandle, hkne, if_false]
      exact ih hcons.2 hm'

/-- The candle selection step is a permutation of its input. -/
theorem pickLatest_perm (b : Candle) (l : List Candle) :
    List.Perm ((pickLatest b l).1 :: (pickLatest b l).2) (b :: l) := by
  induction l generalizing b with
  | nil => exact List.Perm.refl _
  | cons c rest ih =>
    unfold pickLatest
    by_cases h : b.openTime < c.openTime
    · rw [if_pos h]
      dsimp only
      have step : List.Perm
          ((pickLatest c rest).1 :: b :: (pickLatest c rest).2)
          (b :: (pickLatest c rest).1 :: (pickLatest c rest).2) :=
        List.Perm.swap b (pickLatest c rest).1 _
      exact step.trans ((ih c).cons b)
    · rw [if_neg h]
      dsimp only
      have step : List.Perm
          ((pickLatest b rest).1 :: c :: (pickLatest b rest).2)
          (c :: (pickLatest b rest).1 :: (pickLatest b rest).2) :=
        List.Perm.swap c (pickLatest b rest).1 _
      have mid : List.Perm
          (c :: (pickLatest b rest).1 :: (pickLatest b rest).2)
          (c :: b :: rest) := (ih b).cons c
      exact (step.trans mid).trans (List.Perm.swap b c rest)

/-- The candle sort only rearranges candles. -/
theorem mem_sortCandlesDesc (fuel : Nat) (l : List Candle) (x : Candle)
    (h : x ∈ sortCandlesDesc fuel l) : x ∈ l := by
  induction fuel generalizing l with
  | zero =>
    cases l with
    | nil => exact h
    | cons a r => exact h
  | succ n ih =>
    cases l with
    | nil => exact h
    | cons c rest =>
      unfold sortCandlesDesc at h
      dsimp only at h
      have hperm := pickLatest_perm c rest
      rcases List.mem_cons.mp h with rfl | h'
      · exact hperm.subset (List.mem_cons_self _ _)
      · exact hperm.subset (List.mem_cons_of_mem _ (ih _ h'))

/-- In a list sorted newest-first, the head carries the maximal timestamp. -/
theorem pairwise_head_max (B : List Trade)
    (hp : B.Pairwise (fun a b => b.timestamp ≤ a.timestamp))
    (th : Trade) (hh : B.head? = some th) : ∀ t ∈ B, t.timestamp ≤ th.timestamp := by
  cases B with
  | nil => cases hh
  | cons a rest =>
    cases hh
    intro t ht
    rcases List.mem_cons.mp ht with rfl | ht'
    · exact le_refl _
    · exact (List.pairwise_cons.mp hp).1 t ht'

/-- The optional last element of a list is a member. -/
theorem mem_of_getLast_opt :
    ∀ (l : List Trade) (a : Trade), l.getLast? = some a → a ∈ l := by
  intro l
  induction l with
  | nil =>
    intro a h
    exact Option.noConfusion h
  | cons x rest ih =>
    intro a h
    cases rest with
    | nil =>
      cases h
      exact (List.mem_cons_self x [] : x ∈ [x])
    | cons y ys =>
      rw [List.getLast?_cons_cons] at h
      exact List.mem_cons_of_mem _ (ih a h)

/-- In a list sorted newest-first, the last element carries the minimal
timestamp. -/
theorem pairwise_last_min :
    ∀ (B : List Trade), B.Pairwise (fun a b => b.timestamp ≤ a.timestamp) →
    ∀ tl, B.getLast? = some tl → ∀ t ∈ B, tl.timestamp ≤ t.timestamp := by
  intro B
  induction B with
  | nil =>
    intro _ tl hl
    cases hl
  | cons a rest ih =>
    intro hp tl hl t ht
    cases rest with
    | nil =>
      cases hl
      rcases List.mem_cons.mp ht with rfl | habs
      · exact le_refl _
      · cases habs
    | cons b rest2 =>
      have hl2 : (b :: rest2).getLast? = some tl := by
        rw [← List.getLast?_cons_cons]
        exact hl
      have hmem : tl ∈ b :: rest2 := mem_of_getLast_opt (b :: rest2) tl hl2
      rcases List.mem_cons.mp ht with rfl | ht'
      · exact (List.pairwise_cons.mp hp).1 tl hmem
      · exact ih (List.pairwise_cons.mp hp).2 tl hl2 t ht'

/-- Claim C9 (candle open/close selection): under the engine's newest-first
trade ordering, every candle returned by GetCandles has close equal to the
price of the bucket's latest-timestamped trade and open equal to the price of
its earliest-timestamped trade. -/
theorem candle_open_close (instrument : String) (interval : CandleInterval)
    (limit : Nat) (trades : List Trade)
    (hsorted : trades.Pairwise (fun a b => b.timestamp ≤ a.timestamp))
    (c : Candle) (hc : c ∈ getCandles instrument interval limit trades) :
    candleOpenCloseProp instrument interval limit trades c := by
  unfold candleOpenCloseProp
  unfold getCandles at hc
  have hc1 := List.mem_of_mem_take hc
  have hc2 := mem_sortCandlesDesc _ _ _ hc1
  obtain ⟨e, he, hec⟩ := List.mem_map.mp hc2
  have hkey : e.1 = c.openTime := by
    rw [← hec]
    exact foldl_entry_key instrument (getIntervalDuration interval) trades []
      (by intro x hx; cases hx) e he
  have hnodup := foldl_keys_nodup instrument (getIntervalDuration interval) trades []
    (by simp)
  have hepair : (c.openTime, c) ∈ buildCandles instrument (getIntervalDuration interval) trades := by
    have : e = (c.openTime, c) := by
      obtain ⟨ek, ecc⟩ := e
      simp only at hkey hec
      rw [hkey, hec]
    rw [← this]
    exact he
  have hlk : lookupCandle (trades.foldl (stepCandle instrument (getIntervalDuration interval)) [])
      c.openTime = some c :=
    lookupCandle_of_mem_nodup _ hnodup hepair
  have hchar := lookupCandle_foldl instrument (getIntervalDuration interval) trades [] c.openTime
  rw [hlk] at hchar
  cases hB : bucketTrades instrument (getIntervalDuration interval) c.openTime trades with
  | nil =>
    rw [hB] at hchar
    dsimp only [lookupCandle] at hchar
    exact Option.noConfusion hchar
  | cons t rest =>
    rw [hB] at hchar
    dsimp only [lookupCandle] at hchar
    have hcval : c = rest.foldl updCandle (newCandle instrument (getIntervalDuration interval)
        c.openTime t) := Option.some.inj hchar
    have hBpair : (t :: rest).Pairwise (fun a b => b.timestamp ≤ a.timestamp) := by
      rw [← hB]
      exact hsorted.sublist (List.filter_sublist trades)
    refine ⟨by simp, ?_, ?_⟩
    · -- open = earliest
      cases hgl : (t :: rest).getLast? with
      | none => exact Option.noConfusion hgl
      | some tl =>
        refine ⟨tl, rfl, ?_, ?_⟩
        · rw [hcval]
          cases rest with
          | nil =>
            cases hgl
            rfl
          | cons t2 rest2 =>
            rw [List.getLast?_cons_cons] at hgl
            exact foldl_updCandle_open (t2 :: rest2) _ tl hgl
        · exact pairwise_last_min (t :: rest) hBpair tl hgl
    · -- close = latest
      refine ⟨t, rfl, ?_, ?_⟩
      · rw [hcval, foldl_updCandle_close]
        rfl
      · exact pairwise_head_max (t :: rest) hBpair t rfl

/-- Witness for C9: two trades in one 1-minute bucket, listed newest first,
produce a candle opening at the older price 105 and closing at the newer
price 101. -/
theorem candle_open_close_witness :
    (tradesW9.Pairwise (fun a b => b.timestamp ≤ a.timestamp) ∧
     candleW9 ∈ getCandles "R.index" CandleInterval.oneMin 10 tradesW9) ∧
    candleOpenCloseProp "R.index" CandleInterval.oneMin 10 tradesW9 candleW9 :=
  ⟨⟨by decide, by decide⟩,
    candle_open_close "R.index" CandleInterval.oneMin 10 tradesW9 (by decide) candleW9 (by decide)⟩

end TradeRe
